import Mathlib

/-!
Verification of the chat-export ingester (`main.py`) against its
specification.  The Python source is shallowly embedded: strings are
lists of Unicode code points (`List Nat`) where the encoding defect is
at stake and plain `String`s elsewhere; the sqlite database is an
explicit record of tables; exceptions are `Except`/`Option`.
-/

namespace FbParser

/-! ## TextRepair (`parseJsonObject`, line 17-23 of main.py)

`obj[key].encode('latin_1').decode('utf-8')` is modelled on code-point
lists: `latin1Decode` is how the defective loader turned bytes into a
string (byte `b` becomes code point `b`), `latin1Encode` maps a string
back to bytes and fails on any code point above 255 (CPython's
`str.encode('latin_1')`), and `utf8Decode` is CPython's strict UTF-8
decoder (rejects overlong forms, surrogates and values above
U+10FFFF). -/

/-- A Unicode scalar value: what a correctly decoded Python `str`
holds and what `.encode('utf-8')` accepts. -/
def ValidCp (c : Nat) : Prop := c < 1114112 ∧ (c < 55296 ∨ 57343 < c)

instance (c : Nat) : Decidable (ValidCp c) := by
  unfold ValidCp; infer_instance

/-- UTF-8 encoding of one scalar value (CPython `str.encode('utf-8')`,
one character). -/
def utf8EncodeChar (c : Nat) : List Nat :=
  if c < 128 then [c]
  else if c < 2048 then [192 + c / 64, 128 + c % 64]
  else if c < 65536 then [224 + c / 4096, 128 + c / 64 % 64, 128 + c % 64]
  else [240 + c / 262144, 128 + c / 4096 % 64, 128 + c / 64 % 64, 128 + c % 64]

/-- UTF-8 encoding of a whole text. -/
def utf8Encode : List Nat → List Nat
  | [] => []
  | c :: cs => utf8EncodeChar c ++ utf8Encode cs

/-- Continuation bytes of a two-byte sequence with lead byte `b`
(valid leads 194-223 exclude the overlong 192/193 forms). -/
def decode2 (b : Nat) : List Nat → Option (Nat × List Nat)
  | b1 :: bs =>
    if 128 ≤ b1 ∧ b1 < 192 then some ((b - 192) * 64 + (b1 - 128), bs) else none
  | [] => none

/-- Continuation bytes of a three-byte sequence with lead byte `b`;
rejects overlong forms (below U+0800) and surrogates. -/
def decode3 (b : Nat) : List Nat → Option (Nat × List Nat)
  | b1 :: b2 :: bs =>
    if (128 ≤ b1 ∧ b1 < 192) ∧ (128 ≤ b2 ∧ b2 < 192) then
      if 2048 ≤ (b - 224) * 4096 + (b1 - 128) * 64 + (b2 - 128) ∧
          ((b - 224) * 4096 + (b1 - 128) * 64 + (b2 - 128) < 55296 ∨
            57343 < (b - 224) * 4096 + (b1 - 128) * 64 + (b2 - 128)) then
        some ((b - 224) * 4096 + (b1 - 128) * 64 + (b2 - 128), bs)
      else none
    else none
  | _ => none

/-- Continuation bytes of a four-byte sequence with lead byte `b`;
rejects overlong forms (below U+10000) and values above U+10FFFF. -/
def decode4 (b : Nat) : List Nat → Option (Nat × List Nat)
  | b1 :: b2 :: b3 :: bs =>
    if (128 ≤ b1 ∧ b1 < 192) ∧ (128 ≤ b2 ∧ b2 < 192) ∧ (128 ≤ b3 ∧ b3 < 192) then
      if 65536 ≤ (b - 240) * 262144 + (b1 - 128) * 4096 + (b2 - 128) * 64 + (b3 - 128) ∧
          (b - 240) * 262144 + (b1 - 128) * 4096 + (b2 - 128) * 64 + (b3 - 128) < 1114112 then
        some ((b - 240) * 262144 + (b1 - 128) * 4096 + (b2 - 128) * 64 + (b3 - 128), bs)
      else none
    else none
  | _ => none

/-- Decode one UTF-8 sequence from the front of the byte list, strict
about stray continuation bytes and invalid lead bytes. -/
def decodeOne : List Nat → Option (Nat × List Nat)
  | [] => none
  | b :: bs =>
    if b < 128 then some (b, bs)
    else if b < 194 then none
    else if b < 224 then decode2 b bs
    else if b < 240 then decode3 b bs
    else if b < 245 then decode4 b bs
    else none

theorem decode2_length (b : Nat) (bs : List Nat) (c : Nat) (rest : List Nat)
    (h : decode2 b bs = some (c, rest)) : rest.length < bs.length := by
  match bs with
  | [] => simp [decode2] at h
  | b1 :: bs₁ =>
    rw [decode2] at h
    split at h
    · simp only [Option.some.injEq, Prod.mk.injEq] at h
      simp [← h.2]
    · simp at h

theorem decode3_length (b : Nat) (bs : List Nat) (c : Nat) (rest : List Nat)
    (h : decode3 b bs = some (c, rest)) : rest.length < bs.length := by
  match bs with
  | [] => simp [decode3] at h
  | [b1] => simp [decode3] at h
  | b1 :: b2 :: bs₂ =>
    rw [decode3] at h
    split at h
    · split at h
      · simp only [Option.some.injEq, Prod.mk.injEq] at h
        simp [← h.2]
        omega
      · simp at h
    · simp at h

theorem decode4_length (b : Nat) (bs : List Nat) (c : Nat) (rest : List Nat)
    (h : decode4 b bs = some (c, rest)) : rest.length < bs.length := by
  match bs with
  | [] => simp [decode4] at h
  | [b1] => simp [decode4] at h
  | [b1, b2] => simp [decode4] at h
  | b1 :: b2 :: b3 :: bs₃ =>
    rw [decode4] at h
    split at h
    · split at h
      · simp only [Option.some.injEq, Prod.mk.injEq] at h
        simp [← h.2]
        omega
      · simp at h
    · simp at h

theorem decodeOne_length (l : List Nat) (p : Nat × List Nat)
    (h : decodeOne l = some p) : p.2.length < l.length := by
  match l with
  | [] => simp [decodeOne] at h
  | b :: bs =>
    rw [decodeOne] at h
    split at h
    · simp only [Option.some.injEq] at h
      simp [← h]
    · split at h
      · simp at h
      · split at h
        · have := decode2_length b bs p.1 p.2 (by rw [h])
          simpa using Nat.lt_trans this (by simp)
        · split at h
          · have := decode3_length b bs p.1 p.2 (by rw [h])
            simpa using Nat.lt_trans this (by simp)
          · split at h
            · have := decode4_length b bs p.1 p.2 (by rw [h])
              simpa using Nat.lt_trans this (by simp)
            · simp at h

/-- Strict UTF-8 decoding of a byte list (CPython `bytes.decode('utf-8')`):
decode sequences from the front until the list is exhausted; any
invalid sequence fails the whole decode. -/
def utf8Decode (l : List Nat) : Option (List Nat) :=
  match hl : l with
  | [] => some []
  | b :: bs =>
    match hd : decodeOne (b :: bs) with
    | none => none
    | some p => (utf8Decode p.2).map fun r => p.1 :: r
termination_by l.length
decreasing_by
  have := decodeOne_length (b :: bs) p hd
  simpa using this

theorem utf8Decode_nil : utf8Decode [] = some [] := by
  rw [utf8Decode.eq_def]

/-- The defective decode that produced the mojibake:
`bytes.decode('latin_1')` maps byte `b` to code point `b`. -/
def latin1Decode (bs : List Nat) : List Nat := bs

/-- `str.encode('latin_1')`: fails (UnicodeEncodeError) on any code
point above 255, otherwise maps code point `c` to byte `c`. -/
def latin1Encode (s : List Nat) : Option (List Nat) :=
  if s.all fun c => c < 256 then some s else none

/-- The repair applied per string by `parseJsonObject`:
`s.encode('latin_1').decode('utf-8')`. -/
def textRepair (s : List Nat) : Option (List Nat) :=
  (latin1Encode s).bind utf8Decode

theorem utf8EncodeChar_lt_256 (c : Nat) (h : c < 1114112) :
    ∀ b ∈ utf8EncodeChar c, b < 256 := by
  intro b hb
  unfold utf8EncodeChar at hb
  split at hb
  · simp only [List.mem_singleton] at hb; omega
  · split at hb
    · simp only [List.mem_cons, List.not_mem_nil, or_false] at hb
      rcases hb with hb | hb <;> omega
    · split at hb
      · simp only [List.mem_cons, List.not_mem_nil, or_false] at hb
        rcases hb with hb | hb | hb <;> omega
      · simp only [List.mem_cons, List.not_mem_nil, or_false] at hb
        rcases hb with hb | hb | hb | hb <;> omega

theorem utf8Encode_lt_256 (s : List Nat) (h : ∀ c ∈ s, ValidCp c) :
    ∀ b ∈ utf8Encode s, b < 256 := by
  induction s with
  | nil => intro b hb; simp [utf8Encode] at hb
  | cons c cs ih =>
    intro b hb
    simp only [utf8Encode, List.mem_append] at hb
    rcases hb with hb | hb
    · exact utf8EncodeChar_lt_256 c (h c (by simp)).1 b hb
    · exact ih (fun x hx => h x (by simp [hx])) b hb

theorem decodeOne_encodeChar (c : Nat) (h : ValidCp c) (rest : List Nat) :
    decodeOne (utf8EncodeChar c ++ rest) = some (c, rest) := by
  obtain ⟨h1, h2⟩ := h
  unfold utf8EncodeChar
  by_cases hA : c < 128
  · rw [if_pos hA, List.cons_append, List.nil_append, decodeOne, if_pos hA]
  · rw [if_neg hA]
    by_cases hB : c < 2048
    · rw [if_pos hB, List.cons_append, List.cons_append, List.nil_append, decodeOne,
        if_neg (by omega), if_neg (by omega), if_pos (by omega), decode2,
        if_pos (by omega)]
      have hc : (192 + c / 64 - 192) * 64 + (128 + c % 64 - 128) = c := by omega
      rw [hc]
    · rw [if_neg hB]
      by_cases hC : c < 65536
      · rw [if_pos hC, List.cons_append, List.cons_append, List.cons_append,
          List.nil_append, decodeOne, if_neg (by omega), if_neg (by omega),
          if_neg (by omega), if_pos (by omega), decode3,
          if_pos (by constructor <;> omega)]
        have hc : (224 + c / 4096 - 224) * 4096 + (128 + c / 64 % 64 - 128) * 64 +
            (128 + c % 64 - 128) = c := by omega
        rw [hc, if_pos (by omega)]
      · rw [if_neg hC, List.cons_append, List.cons_append, List.cons_append,
          List.cons_append, List.nil_append, decodeOne, if_neg (by omega),
          if_neg (by omega), if_neg (by omega), if_neg (by omega), if_pos (by omega),
          decode4, if_pos (by refine ⟨⟨by omega, by omega⟩, ⟨by omega, by omega⟩,
            by omega, by omega⟩)]
        have hc : (240 + c / 262144 - 240) * 262144 + (128 + c / 4096 % 64 - 128) * 4096 +
            (128 + c / 64 % 64 - 128) * 64 + (128 + c % 64 - 128) = c := by omega
        rw [hc, if_pos (by omega)]

theorem utf8Decode_cons (b : Nat) (bs : List Nat) (c : Nat) (rest : List Nat)
    (h : decodeOne (b :: bs) = some (c, rest)) :
    utf8Decode (b :: bs) = (utf8Decode rest).map fun r => c :: r := by
  rw [utf8Decode.eq_def]
  split
  · next heq => simp at heq
  · next b' bs' heq =>
    injection heq with h1 h2
    subst h1
    subst h2
    split
    · next hd => rw [h] at hd; simp at hd
    · next q hd =>
      rw [h] at hd
      injection hd with h4
      subst h4
      rfl

theorem utf8EncodeChar_ne_nil (c : Nat) : utf8EncodeChar c ≠ [] := by
  unfold utf8EncodeChar
  split
  · simp
  · split
    · simp
    · split <;> simp

theorem utf8Decode_encodeChar (c : Nat) (h : ValidCp c) (rest : List Nat) :
    utf8Decode (utf8EncodeChar c ++ rest) = (utf8Decode rest).map fun r => c :: r := by
  have hne : utf8EncodeChar c ++ rest ≠ [] := by
    intro hx
    exact utf8EncodeChar_ne_nil c (List.append_eq_nil.mp hx).1
  match he : utf8EncodeChar c ++ rest with
  | [] => exact absurd he hne
  | b :: bs =>
    rw [← he]
    have hd : decodeOne (utf8EncodeChar c ++ rest) = some (c, rest) :=
      decodeOne_encodeChar c h rest
    rw [he] at hd ⊢
    exact utf8Decode_cons b bs c rest hd

theorem utf8Decode_utf8Encode (s : List Nat) (h : ∀ c ∈ s, ValidCp c) :
    utf8Decode (utf8Encode s) = some s := by
  induction s with
  | nil => exact utf8Decode_nil
  | cons c cs ih =>
    rw [utf8Encode, utf8Decode_encodeChar c (h c (by simp)),
      ih (fun x hx => h x (by simp [hx]))]
    rfl

theorem utf8Decode_ascii (s : List Nat) (h : ∀ c ∈ s, c < 128) :
    utf8Decode s = some s := by
  induction s with
  | nil => exact utf8Decode_nil
  | cons c cs ih =>
    have hd : decodeOne (c :: cs) = some (c, cs) := by
      rw [decodeOne, if_pos (h c (by simp))]
    rw [utf8Decode_cons c cs c cs hd, ih (fun x hx => h x (by simp [hx]))]
    rfl

theorem textRepair_mojibake (s : List Nat) (h : ∀ c ∈ s, ValidCp c) :
    textRepair (latin1Decode (utf8Encode s)) = some s := by
  unfold textRepair latin1Decode latin1Encode
  rw [if_pos]
  · exact utf8Decode_utf8Encode s h
  · rw [List.all_eq_true]
    intro b hb
    simpa using utf8Encode_lt_256 s h b hb

theorem textRepair_ascii (s : List Nat) (h : ∀ c ∈ s, c < 128) :
    textRepair s = some s := by
  unfold textRepair latin1Encode
  rw [if_pos]
  · exact utf8Decode_ascii s h
  · rw [List.all_eq_true]
    intro b hb
    have := h b hb
    simp only [decide_eq_true_eq]
    omega

theorem textRepair_high_cp (s : List Nat) (c : Nat) (hc : c ∈ s) (hhigh : 255 < c) :
    textRepair s = none := by
  unfold textRepair latin1Encode
  rw [if_neg]
  · rfl
  · simp only [List.all_eq_true, decide_eq_true_eq, not_forall]
    exact ⟨c, hc, by omega⟩

/-- A JSON value as seen by the `object_hook`: a string, a list, or
anything else (numbers, booleans, nested dicts already processed by
the hook). -/
inductive JsonValue where
  | str : List Nat → JsonValue
  | list : List JsonValue → JsonValue
  | other : JsonValue

/-- The per-element repair inside `parseJsonObject`'s list branch:
`x if type(x) != str else x.encode('latin_1').decode('utf-8')`. -/
def repairElem : JsonValue → Option JsonValue
  | .str s => (textRepair s).map .str
  | v => some v

/-- Repair every string element of a list field, in order; any failing
element aborts the whole parse (the lambda raises through `map`). -/
def repairList : List JsonValue → Option (List JsonValue)
  | [] => some []
  | x :: xs => do
    let y ← repairElem x
    let ys ← repairList xs
    pure (y :: ys)

/-- The per-field action of `parseJsonObject`: repair a string field,
repair string elements of a list field, leave anything else alone. -/
def repairValue : JsonValue → Option JsonValue
  | .str s => (textRepair s).map .str
  | .list xs => (repairList xs).map .list
  | v => some v

/-- `parseJsonObject` (main.py line 17-23): rewrite every value of the
object through `repairValue`, keeping keys and field order; a raised
encoding error aborts the load. -/
def parseJsonObject : List (String × JsonValue) → Option (List (String × JsonValue))
  | [] => some []
  | (k, v) :: rest => do
    let w ← repairValue v
    let r ← parseJsonObject rest
    pure ((k, w) :: r)

/-- The corruption the source data suffered: original UTF-8 bytes were
decoded as Latin-1, one code point per byte. -/
def corruptString (s : List Nat) : List Nat := latin1Decode (utf8Encode s)

/-- Corrupt a string element of a list field (non-strings untouched,
matching the shape `parseJsonObject` repairs). -/
def corruptElem : JsonValue → JsonValue
  | .str s => .str (corruptString s)
  | v => v

/-- Corrupt every string reachable by `parseJsonObject`. -/
def corruptValue : JsonValue → JsonValue
  | .str s => .str (corruptString s)
  | .list xs => .list (xs.map corruptElem)
  | v => v

/-- Corrupt every value of an object. -/
def corruptObj (obj : List (String × JsonValue)) : List (String × JsonValue) :=
  obj.map fun kv => (kv.1, corruptValue kv.2)

/-- Original text: every code point is a Unicode scalar value. -/
def ValidStr (s : List Nat) : Prop := ∀ c ∈ s, ValidCp c

/-- Valid original list element (only strings constrained). -/
def ValidElem : JsonValue → Prop
  | .str s => ValidStr s
  | _ => True

/-- Valid original value. -/
def ValidValue : JsonValue → Prop
  | .str s => ValidStr s
  | .list xs => ∀ x ∈ xs, ValidElem x
  | _ => True

theorem repairElem_corruptElem (x : JsonValue) (h : ValidElem x) :
    repairElem (corruptElem x) = some x := by
  cases x with
  | str s =>
    simp only [corruptElem, repairElem]
    rw [show corruptString s = latin1Decode (utf8Encode s) from rfl,
      textRepair_mojibake s h]
    rfl
  | list xs => rfl
  | other => rfl

theorem repairList_corrupt (xs : List JsonValue) (h : ∀ x ∈ xs, ValidElem x) :
    repairList (xs.map corruptElem) = some xs := by
  induction xs with
  | nil => rfl
  | cons x rest ih =>
    rw [List.map_cons, repairList, repairElem_corruptElem x (h x (by simp)),
      ih (fun y hy => h y (by simp [hy]))]
    rfl

theorem repairValue_corruptValue (v : JsonValue) (h : ValidValue v) :
    repairValue (corruptValue v) = some v := by
  cases v with
  | str s =>
    simp only [corruptValue, repairValue]
    rw [show corruptString s = latin1Decode (utf8Encode s) from rfl,
      textRepair_mojibake s h]
    rfl
  | list xs =>
    simp only [corruptValue, repairValue]
    rw [repairList_corrupt xs h]
    rfl
  | other => rfl

theorem parseJsonObject_corruptObj (obj : List (String × JsonValue))
    (h : ∀ kv ∈ obj, ValidValue kv.2) :
    parseJsonObject (corruptObj obj) = some obj := by
  induction obj with
  | nil => rfl
  | cons kv rest ih =>
    obtain ⟨k, v⟩ := kv
    show parseJsonObject ((k, corruptValue v) :: corruptObj rest) = some ((k, v) :: rest)
    rw [parseJsonObject, repairValue_corruptValue v (h (k, v) (by simp)),
      ih (fun x hx => h x (by simp [hx]))]
    rfl

/-- C1: for every string produced by UTF-8-encoding text and decoding
the bytes as Latin-1, TextRepair recovers the original text exactly;
TextRepair is the identity on ASCII-only strings; and `parseJsonObject`
applies this repair to every string-valued field and every string
element of a list-valued field, recovering the whole object. -/
theorem textRepair_recovers :
    (∀ s : List Nat, (∀ c ∈ s, ValidCp c) →
      textRepair (latin1Decode (utf8Encode s)) = some s) ∧
    (∀ s : List Nat, (∀ c ∈ s, c < 128) → textRepair s = some s) ∧
    (∀ obj : List (String × JsonValue), (∀ kv ∈ obj, ValidValue kv.2) →
      parseJsonObject (corruptObj obj) = some obj) :=
  ⟨textRepair_mojibake, textRepair_ascii, parseJsonObject_corruptObj⟩

/-- Witness for C1 at the emoji U+1F600 followed by an ASCII letter. -/
theorem textRepair_recovers_witness :
    textRepair (latin1Decode (utf8Encode [128512, 97])) = some [128512, 97] :=
  textRepair_recovers.1 [128512, 97] (by decide)

theorem parseJsonObject_high_cp (obj : List (String × JsonValue)) (k : String)
    (s : List Nat) (c : Nat) (hmem : (k, JsonValue.str s) ∈ obj) (hc : c ∈ s)
    (hhigh : 255 < c) : parseJsonObject obj = none := by
  induction obj with
  | nil => simp at hmem
  | cons kv rest ih =>
    rcases List.mem_cons.mp hmem with hkv | hkv
    · obtain ⟨k₁, v₁⟩ := kv
      injection hkv with h1 h2
      subst h2
      show parseJsonObject ((k₁, JsonValue.str s) :: rest) = none
      rw [parseJsonObject]
      simp [repairValue, textRepair_high_cp s c hc hhigh]
    · obtain ⟨k₁, v₁⟩ := kv
      show parseJsonObject ((k₁, v₁) :: rest) = none
      rw [parseJsonObject]
      cases hrv : repairValue v₁ <;> simp [hrv, ih hkv]

/-- C10: TextRepair is total only on strings whose code points all fit
in Latin-1: any string holding a code point above U+00FF (an already
correct emoji, say) makes the repair raise an encoding error — and so
makes `parseJsonObject` fail on any object containing such a string —
instead of returning the string unchanged. -/
theorem textRepair_high_cp_fails :
    (∀ (s : List Nat) (c : Nat), c ∈ s → 255 < c → textRepair s = none) ∧
    (∀ (obj : List (String × JsonValue)) (k : String) (s : List Nat) (c : Nat),
      (k, JsonValue.str s) ∈ obj → c ∈ s → 255 < c → parseJsonObject obj = none) :=
  ⟨textRepair_high_cp, parseJsonObject_high_cp⟩

/-- Witness for C10 at the string "h€" (the euro sign is U+20AC). -/
theorem textRepair_high_cp_fails_witness : textRepair [104, 8364] = none :=
  textRepair_high_cp_fails.1 [104, 8364] 8364 (by decide) (by decide)

/-! ## Chunk-file discovery (`getMessagePaths`, main.py line 6-12)

Python's substring test `pat in s` and suffix test are modelled on
character lists. -/

/-- `s` starts with `pat` (helper for the substring test). -/
def startsWith : List Char → List Char → Bool
  | [], _ => true
  | _ :: _, [] => false
  | p :: ps, c :: cs => p = c && startsWith ps cs

/-- Python's `pat in s`: `pat` occurs as a contiguous substring. -/
def containsSub (pat : List Char) : List Char → Bool
  | [] => startsWith pat []
  | c :: cs => startsWith pat (c :: cs) || containsSub pat cs

/-- `pat` is a suffix of `s`. -/
def endsWith (pat : List Char) : List Char → Bool
  | [] => pat.isEmpty
  | c :: cs => (pat == c :: cs) || endsWith pat cs

/-- `isMessageFile` (main.py line 7-8): the filename contains
`'.json'` and contains `'message'`, both case-sensitive. -/
def isMessageFile (filename : String) : Bool :=
  containsSub ".json".data filename.data && containsSub "message".data filename.data

/-- `getMessagePaths` (main.py line 6-12): filter the directory
listing by `isMessageFile`, keeping listing order, and prefix each
name with the directory and a backslash. -/
def getMessagePaths (directory : String) (listing : List String) : List String :=
  (listing.filter isMessageFile).map fun x => directory ++ "\\" ++ x

/-- The chunk-file naming convention as the spec states it: contains
the marker token and ends with the `.json` suffix. -/
def specIsChunkFile (filename : String) : Bool :=
  containsSub "message".data filename.data && endsWith ".json".data filename.data

theorem startsWith_refl (l : List Char) : startsWith l l = true := by
  induction l with
  | nil => rfl
  | cons c cs ih => simp [startsWith, ih]

theorem endsWith_containsSub (pat s : List Char) (h : endsWith pat s = true) :
    containsSub pat s = true := by
  induction s with
  | nil =>
    rw [endsWith] at h
    rw [containsSub]
    cases pat with
    | nil => rfl
    | cons p ps => simp [List.isEmpty] at h
  | cons c cs ih =>
    rw [endsWith] at h
    rw [containsSub]
    rcases Bool.or_eq_true_iff.mp h with h1 | h1
    · have : pat = c :: cs := by simpa using h1
      subst this
      simp [startsWith_refl]
    · simp [ih h1]

/-- C9 counterexample: a filename where `'.json'` occurs other than as
a suffix is still returned by `getMessagePaths`, though the spec's
naming convention rejects it. -/
theorem getMessagePaths_suffix_counterexample :
    getMessagePaths "dir" ["message_1.json.bak"] = ["dir\\message_1.json.bak"] ∧
    specIsChunkFile "message_1.json.bak" = false := by
  constructor
  · rfl
  · rfl

/-- C9 (amended): `getMessagePaths` returns exactly the files whose
name contains the case-sensitive marker `'message'` and contains
`'.json'` anywhere (not necessarily as a suffix), in listing order,
each prefixed with the directory; every file matching the spec's
convention (marker plus `.json` suffix) is among them. -/
theorem getMessagePaths_filter :
    (∀ (directory : String) (listing : List String),
      getMessagePaths directory listing =
        (listing.filter fun f =>
          containsSub ".json".data f.data && containsSub "message".data f.data).map
          fun x => directory ++ "\\" ++ x) ∧
    (∀ f : String, specIsChunkFile f = true → isMessageFile f = true) := by
  constructor
  · intro directory listing
    rfl
  · intro f hf
    rw [specIsChunkFile, Bool.and_eq_true] at hf
    rw [isMessageFile, Bool.and_eq_true]
    exact ⟨endsWith_containsSub _ _ hf.2, hf.1⟩

/-- Witness for C9 (amended) on a two-file listing with one chunk file. -/
theorem getMessagePaths_filter_witness :
    getMessagePaths "d" ["message_1.json", "photo.png"] =
      (["message_1.json", "photo.png"].filter fun f =>
        containsSub ".json".data f.data && containsSub "message".data f.data).map
        (fun x => "d" ++ "\\" ++ x) ∧
    isMessageFile "message_1.json" = true :=
  ⟨getMessagePaths_filter.1 "d" ["message_1.json", "photo.png"],
    getMessagePaths_filter.2 "message_1.json" (by decide)⟩

/-! ## Conversation aggregation (`Conversation`, main.py line 30-60)

Python dicts keep insertion order, so the participant map is an
association list with dict-style insert (update in place, append when
new). -/

/-- One entry of a message's `reactions` list. -/
structure Reaction where
  actor : String
  reaction : String
deriving DecidableEq

/-- One entry of an attachment list; the code only reads `uri`. -/
structure Attachment where
  uri : String
deriving DecidableEq

/-- A message's `share` sub-record; both fields may be absent. -/
structure ShareRec where
  link : Option String
  share_text : Option String
deriving DecidableEq

/-- One raw message record of a chunk file (MessageRecord schema). -/
structure MessageRec where
  sender_name : String
  timestamp_ms : Int
  mtype : String
  content : Option String
  reactions : Option (List Reaction)
  photos : Option (List Attachment)
  videos : Option (List Attachment)
  files : Option (List Attachment)
  audio_files : Option (List Attachment)
  gifs : Option (List Attachment)
  share : Option ShareRec
  sticker : Option String
deriving DecidableEq

/-- The decoded content of one chunk file. -/
structure RawDocument where
  title : String
  thread_type : String
  thread_path : String
  participants : List String
  messages : List MessageRec
deriving DecidableEq

/-- The `{name: id}` participant dict; `none` is Python's `None`
(surrogate id not assigned yet). -/
abbrev PMap := List (String × Option Nat)

/-- Dict lookup: `conversation.participants[name]`. -/
def lookupP : PMap → String → Option (Option Nat)
  | [], _ => none
  | (k, v) :: rest, name => if k = name then some v else lookupP rest name

/-- Dict assignment `participants[name] = v`: update in place if the
key exists, append otherwise. -/
def insertP (m : PMap) (k : String) (v : Option Nat) : PMap :=
  if m.any fun p => p.1 = k then
    m.map fun p => if p.1 = k then (k, v) else p
  else m ++ [(k, v)]

/-- The in-memory conversation object (`Conversation.__init__`,
main.py line 31-37); `metadata = none` models the initial empty dict. -/
structure Conversation where
  directory : String
  metadata : Option (String × String × String)
  participants : PMap
  chunks_loaded : Nat
  messages : List MessageRec
  id : Nat
deriving DecidableEq

/-- `Conversation(directory)`. -/
def mkConversation (directory : String) : Conversation :=
  ⟨directory, none, [], 0, [], 0⟩

/-- The candidate metadata tuple built at the top of `loadMessages`. -/
def metaOf (d : RawDocument) : String × String × String :=
  (d.title, d.thread_type, d.thread_path)

/-- First-chunk roster registration: each participant name mapped to
`None` (main.py line 48-49). -/
def registerRoster (pm : PMap) (names : List String) : PMap :=
  names.foldl (fun m n => insertP m n none) pm

/-- `Conversation.loadMessages` (main.py line 39-54): adopt the
metadata and roster on the first chunk, otherwise assert metadata
equality (`IntegrityError` on mismatch); always append the document's
messages and bump the chunk counter. -/
def loadMessages (c : Conversation) (d : RawDocument) : Except String Conversation :=
  match c.metadata with
  | none =>
    Except.ok { c with
      metadata := some (metaOf d),
      participants := registerRoster c.participants d.participants,
      chunks_loaded := c.chunks_loaded + 1,
      messages := c.messages ++ d.messages }
  | some m =>
    if metaOf d = m then
      Except.ok { c with
        chunks_loaded := c.chunks_loaded + 1,
        messages := c.messages ++ d.messages }
    else Except.error "IntegrityError"

/-- Merge a sequence of chunk documents one at a time (the per-chunk
loop of the orchestration, main.py line 201-203). -/
def mergeAll (c : Conversation) (docs : List RawDocument) : Except String Conversation :=
  docs.foldlM loadMessages c

/-- Concatenation of the documents' message lists in chunk order. -/
def msgsConcat : List RawDocument → List MessageRec
  | [] => []
  | d :: ds => d.messages ++ msgsConcat ds

theorem loadMessages_ok_shape (c : Conversation) (d : RawDocument) (c' : Conversation)
    (h : loadMessages c d = Except.ok c') :
    c'.messages = c.messages ++ d.messages ∧ c'.chunks_loaded = c.chunks_loaded + 1 := by
  unfold loadMessages at h
  split at h
  · injection h with h1
    subst h1
    exact ⟨rfl, rfl⟩
  · split at h
    · injection h with h1
      subst h1
      exact ⟨rfl, rfl⟩
    · exact absurd h (by simp)

theorem mergeAll_shape (docs : List RawDocument) :
    ∀ (c c' : Conversation), mergeAll c docs = Except.ok c' →
      c'.messages = c.messages ++ msgsConcat docs ∧
      c'.chunks_loaded = c.chunks_loaded + docs.length := by
  induction docs with
  | nil =>
    intro c c' h
    injection h with h1
    subst h1
    simp [msgsConcat]
  | cons d ds ih =>
    intro c c' h
    rw [mergeAll, List.foldlM_cons] at h
    cases hd : loadMessages c d with
    | error e =>
      rw [hd] at h
      have h2 : (Except.error e : Except String Conversation) = Except.ok c' := h
      exact Except.noConfusion h2
    | ok c₁ =>
      rw [hd] at h
      have h₁ : mergeAll c₁ ds = Except.ok c' := h
      obtain ⟨hm, hc⟩ := ih c₁ c' h₁
      obtain ⟨hm₀, hc₀⟩ := loadMessages_ok_shape c d c₁ hd
      constructor
      · rw [hm, hm₀, msgsConcat, List.append_assoc]
      · rw [hc, hc₀, List.length_cons]
        omega

/-- C2: merging a sequence of chunk documents one at a time into a
conversation yields the concatenation of the documents' message lists
in chunk order, and the chunk counter equals the number of merges. -/
theorem mergeAll_concat (dir : String) (docs : List RawDocument) (c' : Conversation)
    (h : mergeAll (mkConversation dir) docs = Except.ok c') :
    c'.messages = msgsConcat docs ∧ c'.chunks_loaded = docs.length := by
  obtain ⟨hm, hc⟩ := mergeAll_shape docs (mkConversation dir) c' h
  refine ⟨?_, ?_⟩
  · rw [hm]; rfl
  · rw [hc]; simp [mkConversation]

/-- A first chunk: title "t", two roster names, one message. -/
def msgA : MessageRec :=
  ⟨"alice", 1000, "Generic", some "hi", none, none, none, none, none, none, none, none⟩

/-- A second message, sent by the other roster member. -/
def msgB : MessageRec :=
  ⟨"bob", 2000, "Generic", some "yo", none, none, none, none, none, none, none, none⟩

/-- First chunk document of the running example. -/
def docEx1 : RawDocument := ⟨"t", "Regular", "path", ["alice", "bob"], [msgA]⟩

/-- Second chunk document: identical metadata, different messages. -/
def docEx2 : RawDocument := ⟨"t", "Regular", "path", ["alice", "bob"], [msgB]⟩

/-- The conversation after merging both example chunks. -/
def convEx12 : Conversation :=
  (mergeAll (mkConversation "dirx") [docEx1, docEx2]).toOption.getD (mkConversation "dirx")

/-- Witness for C2: two concrete chunks merged in order. -/
theorem mergeAll_concat_witness :
    convEx12.messages = msgsConcat [docEx1, docEx2] ∧ convEx12.chunks_loaded = 2 :=
  mergeAll_concat "dirx" [docEx1, docEx2] convEx12 rfl

/-- C3: once a conversation has absorbed a chunk (its metadata is
set), merging a chunk whose metadata tuple differs raises
`IntegrityError`, and merging one whose tuple is equal succeeds,
changing only the message list and chunk counter — the stored metadata
is untouched. -/
theorem loadMessages_metadata_guard (c : Conversation) (d : RawDocument)
    (m : String × String × String) (hm : c.metadata = some m) :
    (metaOf d ≠ m → loadMessages c d = Except.error "IntegrityError") ∧
    (metaOf d = m → loadMessages c d = Except.ok { c with
      chunks_loaded := c.chunks_loaded + 1,
      messages := c.messages ++ d.messages }) := by
  constructor
  · intro hne
    unfold loadMessages
    rw [hm]
    simp [hne]
  · intro heq
    unfold loadMessages
    rw [hm]
    simp [heq]

/-- The conversation after its first chunk. -/
def convEx1 : Conversation :=
  (loadMessages (mkConversation "dirx") docEx1).toOption.getD (mkConversation "dirx")

/-- A chunk with a different title. -/
def docBadTitle : RawDocument := ⟨"other", "Regular", "path", [], []⟩

/-- Witness for C3: same-metadata merge succeeds without touching the
metadata, differing-title merge raises. -/
theorem loadMessages_metadata_guard_witness :
    loadMessages convEx1 docBadTitle = Except.error "IntegrityError" ∧
    loadMessages convEx1 docEx2 = Except.ok { convEx1 with
      chunks_loaded := convEx1.chunks_loaded + 1,
      messages := convEx1.messages ++ docEx2.messages } :=
  ⟨(loadMessages_metadata_guard convEx1 docBadTitle ("t", "Regular", "path") rfl).1
      (by decide),
    (loadMessages_metadata_guard convEx1 docEx2 ("t", "Regular", "path") rfl).2 rfl⟩

/-! ## Relational writer (`Database`, main.py line 62-185)

The sqlite connection is a record of tables plus an insert counter.
`lastrowid` is the table's row count plus one.  An abstract oracle
decides whether the n-th INSERT of the run raises (disk error,
constraint violation, ...); `fun n => false` is the failure-free run.
`commit` makes the whole pending state durable at once; an exception
raised before `db.commit()` propagates and nothing of the transaction
becomes visible (sqlite rolls the open transaction back), which the
model expresses by returning no new connection state on error. -/

/-- A row of `conversations(id, title, type, path)`. -/
structure ConversationRow where
  cid : Nat
  title : String
  ctype : String
  path : String
deriving DecidableEq

/-- A row of `participants(id, convo_id, name, current)`; `current`
stores the `1 if current else 0` the code binds. -/
structure ParticipantRow where
  pid : Nat
  convo_id : Nat
  name : String
  current : Nat
deriving DecidableEq

/-- A row of `messages(id, timestamp_s, type, sender_id,
conversation_id, content)`. -/
structure MessageRow where
  mid : Nat
  timestamp_s : Int
  mtype : String
  sender_id : Option Nat
  conversation_id : Nat
  content : Option String
deriving DecidableEq

/-- A row of `reactions(message_id, user_id, reaction)`. -/
structure ReactionRow where
  message_id : Nat
  user_id : Option Nat
  reaction : String
deriving DecidableEq

/-- A row of one of the five attachment tables `(message_id, filename)`. -/
structure AttachmentRow where
  message_id : Nat
  filename : String
deriving DecidableEq

/-- A row of `shares(message_id, link, share_text)`. -/
structure ShareRow where
  message_id : Nat
  link : Option String
  share_text : Option String
deriving DecidableEq

/-- A row of `stickers(message_id, path)`. -/
structure StickerRow where
  message_id : Nat
  path : String
deriving DecidableEq

/-- The sqlite database: the eleven tables the writer owns, plus a
counter of INSERT statements executed (consumed by the failure
oracle). -/
structure DBState where
  conversations : List ConversationRow
  participants : List ParticipantRow
  messages : List MessageRow
  photos : List AttachmentRow
  shares : List ShareRow
  files : List AttachmentRow
  gifs : List AttachmentRow
  videos : List AttachmentRow
  audio_files : List AttachmentRow
  reactions : List ReactionRow
  stickers : List StickerRow
  ops : Nat
deriving DecidableEq

/-- A database with no rows. -/
def emptyDB : DBState := ⟨[], [], [], [], [], [], [], [], [], [], [], 0⟩

/-- Decides whether the n-th INSERT of the run fails. -/
abbrev Oracle := Nat → Bool

/-- The failure-free run. -/
def neverFail : Oracle := fun _ => false

/-- `INSERT INTO conversations` (main.py line 103-107). -/
def insertConversation (o : Oracle) (st : DBState) (cid : Nat)
    (title ctype path : String) : Except String DBState :=
  if o st.ops then Except.error "PersistenceError"
  else Except.ok { st with
    conversations := st.conversations ++ [⟨cid, title, ctype, path⟩],
    ops := st.ops + 1 }

/-- `_saveParticipant` (main.py line 117-121): insert and return the
generated surrogate id (`cursor.lastrowid`). -/
def insertParticipant (o : Oracle) (st : DBState) (cid : Nat) (name : String)
    (current : Bool) : Except String (Nat × DBState) :=
  if o st.ops then Except.error "PersistenceError"
  else Except.ok (st.participants.length + 1, { st with
    participants := st.participants ++
      [⟨st.participants.length + 1, cid, name, if current then 1 else 0⟩],
    ops := st.ops + 1 })

/-- The second-precision timestamp bound into the message row:
`item['timestamp_ms'] // 1000`, Python floor division. -/
def messageEpoch (m : MessageRec) : Int := Int.fdiv m.timestamp_ms 1000

/-- `INSERT INTO messages` (main.py line 128-132). -/
def insertMessage (o : Oracle) (st : DBState) (ts : Int) (mtype : String)
    (sender : Option Nat) (cid : Nat) (content : Option String) :
    Except String DBState :=
  if o st.ops then Except.error "PersistenceError"
  else Except.ok { st with
    messages := st.messages ++ [⟨st.messages.length + 1, ts, mtype, sender, cid, content⟩],
    ops := st.ops + 1 }

/-- `_saveReaction` (main.py line 157-161). -/
def insertReaction (o : Oracle) (st : DBState) (mid : Nat) (uid : Option Nat)
    (reaction : String) : Except String DBState :=
  if o st.ops then Except.error "PersistenceError"
  else Except.ok { st with
    reactions := st.reactions ++ [⟨mid, uid, reaction⟩],
    ops := st.ops + 1 }

/-- Python's `uri.split('/')`. -/
def splitChar (c : Char) : List Char → List (List Char)
  | [] => [[]]
  | x :: xs =>
    if x = c then [] :: splitChar c xs
    else
      match splitChar c xs with
      | [] => [[x]]
      | s :: rest => (x :: s) :: rest

/-- `_saveAttachement`'s filename: `item['uri'].split('/')[-1]`
(main.py line 164). -/
def filenameOf (uri : String) : String :=
  ⟨(splitChar '/' uri.data).getLastD []⟩

/-- Dispatch an attachment row into the table named by the loop
variable (main.py line 140-147, 163-167). -/
def addAttachRow (table : String) (mid : Nat) (fn : String) (st : DBState) : DBState :=
  match table with
  | "photos" => { st with photos := st.photos ++ [⟨mid, fn⟩] }
  | "videos" => { st with videos := st.videos ++ [⟨mid, fn⟩] }
  | "files" => { st with files := st.files ++ [⟨mid, fn⟩] }
  | "audio_files" => { st with audio_files := st.audio_files ++ [⟨mid, fn⟩] }
  | "gifs" => { st with gifs := st.gifs ++ [⟨mid, fn⟩] }
  | _ => st

/-- `_saveAttachement` (main.py line 163-167). -/
def insertAttachment (o : Oracle) (st : DBState) (table : String) (mid : Nat)
    (fn : String) : Except String DBState :=
  if o st.ops then Except.error "PersistenceError"
  else Except.ok (addAttachRow table mid fn { st with ops := st.ops + 1 })

/-- `_saveShare` (main.py line 176-182). -/
def insertShare (o : Oracle) (st : DBState) (mid : Nat) (link text : Option String) :
    Except String DBState :=
  if o st.ops then Except.error "PersistenceError"
  else Except.ok { st with
    shares := st.shares ++ [⟨mid, link, text⟩],
    ops := st.ops + 1 }

/-- `_saveSticker` (main.py line 169-174): stores the full URI. -/
def insertSticker (o : Oracle) (st : DBState) (mid : Nat) (path : String) :
    Except String DBState :=
  if o st.ops then Except.error "PersistenceError"
  else Except.ok { st with
    stickers := st.stickers ++ [⟨mid, path⟩],
    ops := st.ops + 1 }

/-- `_getParticipantId` (main.py line 90-99): return the cached id if
the name is in the conversation's map, otherwise insert a not-current
participant row lazily and cache the generated id. -/
def getParticipantId (o : Oracle) (st : DBState) (pm : PMap) (cid : Nat)
    (name : String) : Except String (Option Nat × PMap × DBState) :=
  match lookupP pm name with
  | some v => Except.ok (v, pm, st)
  | none =>
    match insertParticipant o st cid name false with
    | Except.error e => Except.error e
    | Except.ok (pid, st₁) => Except.ok (some pid, insertP pm name (some pid), st₁)

/-- The reaction loop of `_saveMessage` (main.py line 135-138). -/
def saveReactions (o : Oracle) (cid mid : Nat) :
    List Reaction → PMap → DBState → Except String (PMap × DBState)
  | [], pm, st => Except.ok (pm, st)
  | r :: rs, pm, st => do
    let (uid, pm₁, st₁) ← getParticipantId o st pm cid r.actor
    let st₂ ← insertReaction o st₁ mid uid r.reaction
    saveReactions o cid mid rs pm₁ st₂

/-- One attachment table's inner loop (main.py line 144-147). -/
def saveAttachList (o : Oracle) (table : String) (mid : Nat) :
    List Attachment → DBState → Except String DBState
  | [], st => Except.ok st
  | a :: rest, st => do
    let st₁ ← insertAttachment o st table mid (filenameOf a.uri)
    saveAttachList o table mid rest st₁

/-- The `"share" in item` branch (main.py line 149-150). -/
def saveShareOpt (o : Oracle) (mid : Nat) :
    Option ShareRec → DBState → Except String DBState
  | none, st => Except.ok st
  | some sh, st => insertShare o st mid sh.link sh.share_text

/-- The `"sticker" in item` branch (main.py line 152-153). -/
def saveStickerOpt (o : Oracle) (mid : Nat) :
    Option String → DBState → Except String DBState
  | none, st => Except.ok st
  | some uri, st => insertSticker o st mid uri

/-- `item[table]` for the attachment loop: the list of that kind, or
nothing when the key is absent (`if table in item`). -/
def msgAttach (item : MessageRec) (table : String) : List Attachment :=
  match table with
  | "photos" => item.photos.getD []
  | "videos" => item.videos.getD []
  | "files" => item.files.getD []
  | "audio_files" => item.audio_files.getD []
  | "gifs" => item.gifs.getD []
  | _ => []

/-- `attachements = ["photos", "videos", "files", "audio_files", "gifs"]`
(main.py line 140). -/
def attachTables : List String := ["photos", "videos", "files", "audio_files", "gifs"]

/-- The `for table in attachements` loop (main.py line 144-147). -/
def saveAttachAll (o : Oracle) (mid : Nat) (item : MessageRec) :
    List String → DBState → Except String DBState
  | [], st => Except.ok st
  | t :: ts, st => do
    let st₁ ← saveAttachList o t mid (msgAttach item t) st
    saveAttachAll o mid item ts st₁

/-- `_saveMessage` (main.py line 123-155): resolve the sender, insert
the message row, capture its id, then reactions, the five attachment
lists in source order, share and sticker. -/
def saveMessage (o : Oracle) (cid : Nat) (item : MessageRec) (pm : PMap)
    (st : DBState) : Except String (PMap × DBState) := do
  let (sid, pm₁, st₁) ← getParticipantId o st pm cid item.sender_name
  let st₂ ← insertMessage o st₁ (messageEpoch item) item.mtype sid cid item.content
  let (pm₂, st₃) ← saveReactions o cid (st₁.messages.length + 1) (item.reactions.getD []) pm₁ st₂
  let st₄ ← saveAttachAll o (st₁.messages.length + 1) item attachTables st₃
  let st₉ ← saveShareOpt o (st₁.messages.length + 1) item.share st₄
  let stA ← saveStickerOpt o (st₁.messages.length + 1) item.sticker st₉
  pure (pm₂, stA)

/-- The message loop of `_saveConversation` (main.py line 112-113). -/
def saveMessages (o : Oracle) (cid : Nat) :
    List MessageRec → PMap → DBState → Except String (PMap × DBState)
  | [], pm, st => Except.ok (pm, st)
  | m :: ms, pm, st => do
    let (pm₁, st₁) ← saveMessage o cid m pm st
    saveMessages o cid ms pm₁ st₁

/-- The roster loop of `_saveConversation` (main.py line 109-110):
every roster entry gets a current participant row and its generated id
is written back into the map. -/
def saveRoster (o : Oracle) (cid : Nat) :
    PMap → DBState → Except String (PMap × DBState)
  | [], st => Except.ok ([], st)
  | (name, _) :: rest, st => do
    let (pid, st₁) ← insertParticipant o st cid name true
    let (rest₁, st₂) ← saveRoster o cid rest st₁
    pure ((name, some pid) :: rest₁, st₂)

/-- `_saveConversation` (main.py line 101-115); reading
`item.metadata['title']` on a conversation that never absorbed a chunk
raises (KeyError). -/
def saveConversation (o : Oracle) (item : Conversation) (st : DBState) :
    Except String (Conversation × DBState) :=
  match item.metadata with
  | none => Except.error "KeyError"
  | some m => do
    let st₁ ← insertConversation o st item.id m.1 m.2.1 m.2.2
    let (pm₁, st₂) ← saveRoster o item.id item.participants st₁
    let (pm₂, st₃) ← saveMessages o item.id item.messages pm₁ st₂
    pure ({ item with participants := pm₂ }, st₃)

/-- The sqlite connection: the committed (durable) database. -/
structure Connection where
  committed : DBState
deriving DecidableEq

/-- `Database.save` (main.py line 67-74): run the insert chain inside
the implicit transaction, then `db.commit()`.  An exception raised by
any insert propagates before the commit, so the committed state is
unchanged (the caller keeps the old connection). -/
def save (o : Oracle) (conn : Connection) (item : Conversation) :
    Except String (Conversation × Connection) :=
  match saveConversation o item conn.committed with
  | Except.error e => Except.error e
  | Except.ok (item₁, st) => Except.ok (item₁, ⟨st⟩)

/-- `DELETE FROM table` (main.py line 184-185). -/
def deleteTable (st : DBState) (table : String) : DBState :=
  match table with
  | "conversations" => { st with conversations := [] }
  | "participants" => { st with participants := [] }
  | "messages" => { st with messages := [] }
  | "photos" => { st with photos := [] }
  | "shares" => { st with shares := [] }
  | "files" => { st with files := [] }
  | "gifs" => { st with gifs := [] }
  | "videos" => { st with videos := [] }
  | "audio_files" => { st with audio_files := [] }
  | "reactions" => { st with reactions := [] }
  | "stickers" => { st with stickers := [] }
  | _ => st

/-- The table list of `Database.removeAll` (main.py line 79-82). -/
def removeAllTables : List String :=
  ["conversations", "participants", "messages", "photos", "shares", "files",
    "gifs", "videos", "audio_files", "reactions", "stickers"]

/-- `Database.removeAll(Conversation)` (main.py line 76-88): delete
every row of every owned table, then commit. -/
def removeAll (conn : Connection) : Connection :=
  ⟨removeAllTables.foldl deleteTable conn.committed⟩

/-- The per-conversation loop of the orchestration (main.py line
194-207): persist each conversation in turn. -/
def persistList (o : Oracle) : Connection → List Conversation → Except String Connection
  | conn, [] => Except.ok conn
  | conn, c :: cs => do
    let (_, conn₁) ← save o conn c
    persistList o conn₁ cs

/-- A sequence of `_getParticipantId` calls during one conversation's
persistence, collecting the returned ids. -/
def processNames (o : Oracle) (cid : Nat) :
    List String → PMap → DBState → Except String (List (Option Nat) × PMap × DBState)
  | [], pm, st => Except.ok ([], pm, st)
  | n :: ns, pm, st => do
    let (v, pm₁, st₁) ← getParticipantId o st pm cid n
    let (ids, pm₂, st₂) ← processNames o cid ns pm₁ st₁
    pure (v :: ids, pm₂, st₂)

/-! ### Participant-map lemmas -/

theorem lookupP_map_self (pm : PMap) (k : String) (v : Option Nat)
    (h : (pm.any fun p => p.1 = k) = true) :
    lookupP (pm.map fun p => if p.1 = k then (k, v) else p) k = some v := by
  induction pm with
  | nil => simp at h
  | cons hd tl ih =>
    obtain ⟨k₁, v₁⟩ := hd
    by_cases hk : k₁ = k
    · simp only [List.map_cons]
      rw [show (if ((k₁, v₁) : String × Option Nat).1 = k then (k, v) else (k₁, v₁)) = (k, v)
        from by simp [hk]]
      rw [lookupP, if_pos rfl]
    · simp only [List.any_cons, Bool.or_eq_true, decide_eq_true_eq] at h
      rcases h with h | h
      · exact absurd h hk
      · simp only [List.map_cons]
        rw [show (if ((k₁, v₁) : String × Option Nat).1 = k then (k, v) else (k₁, v₁)) = (k₁, v₁)
          from by simp [hk]]
        rw [lookupP, if_neg hk]
        exact ih h

theorem lookupP_map_ne (pm : PMap) (k : String) (v : Option Nat) (n : String)
    (hne : k ≠ n) :
    lookupP (pm.map fun p => if p.1 = k then (k, v) else p) n = lookupP pm n := by
  induction pm with
  | nil => rfl
  | cons hd tl ih =>
    obtain ⟨k₁, v₁⟩ := hd
    simp only [List.map_cons]
    by_cases hk : k₁ = k
    · rw [show (if ((k₁, v₁) : String × Option Nat).1 = k then (k, v) else (k₁, v₁)) = (k, v)
        from by simp [hk]]
      rw [lookupP, if_neg hne, lookupP, if_neg (by rw [hk]; exact hne)]
      exact ih
    · rw [show (if ((k₁, v₁) : String × Option Nat).1 = k then (k, v) else (k₁, v₁)) = (k₁, v₁)
        from by simp [hk]]
      by_cases hn : k₁ = n
      · rw [lookupP, if_pos hn, lookupP, if_pos hn]
      · rw [lookupP, if_neg hn, lookupP, if_neg hn]
        exact ih

theorem lookupP_of_not_any (pm : PMap) (n : String)
    (h : (pm.any fun p => p.1 = n) = false) : lookupP pm n = none := by
  induction pm with
  | nil => rfl
  | cons hd tl ih =>
    obtain ⟨k₁, v₁⟩ := hd
    simp only [List.any_cons, Bool.or_eq_false_iff, decide_eq_false_iff_not] at h
    rw [lookupP, if_neg h.1]
    exact ih h.2

theorem lookupP_append_new (pm : PMap) (k : String) (v : Option Nat)
    (h : lookupP pm k = none) : lookupP (pm ++ [(k, v)]) k = some v := by
  induction pm with
  | nil => rw [List.nil_append, lookupP, if_pos rfl]
  | cons hd tl ih =>
    obtain ⟨k₁, v₁⟩ := hd
    rw [lookupP] at h
    rw [List.cons_append, lookupP]
    split at h
    · exact absurd h (by simp)
    · next hk =>
      rw [if_neg hk]
      exact ih h

theorem lookupP_append_ne (pm : PMap) (k : String) (v : Option Nat) (n : String)
    (hne : k ≠ n) : lookupP (pm ++ [(k, v)]) n = lookupP pm n := by
  induction pm with
  | nil => simp [lookupP, hne]
  | cons hd tl ih =>
    obtain ⟨k₁, v₁⟩ := hd
    rw [List.cons_append, lookupP, lookupP]
    by_cases hn : k₁ = n
    · rw [if_pos hn, if_pos hn]
    · rw [if_neg hn, if_neg hn]
      exact ih

theorem lookupP_insertP_self (pm : PMap) (k : String) (v : Option Nat) :
    lookupP (insertP pm k v) k = some v := by
  unfold insertP
  split
  · next ha => exact lookupP_map_self pm k v ha
  · next ha =>
    have hfalse : (pm.any fun p => p.1 = k) = false := by
      cases hx : pm.any fun p => p.1 = k
      · rfl
      · exact absurd hx ha
    exact lookupP_append_new pm k v (lookupP_of_not_any pm k hfalse)

theorem lookupP_insertP_ne (pm : PMap) (k : String) (v : Option Nat) (n : String)
    (hne : k ≠ n) : lookupP (insertP pm k v) n = lookupP pm n := by
  unfold insertP
  split
  · exact lookupP_map_ne pm k v n hne
  · exact lookupP_append_ne pm k v n hne

theorem insertParticipant_ok (o : Oracle) (st : DBState) (cid : Nat) (name : String)
    (cur : Bool) (pid : Nat) (st₁ : DBState)
    (h : insertParticipant o st cid name cur = Except.ok (pid, st₁)) :
    pid = st.participants.length + 1 ∧
    st₁ = { st with
      participants := st.participants ++ [⟨pid, cid, name, if cur then 1 else 0⟩],
      ops := st.ops + 1 } := by
  unfold insertParticipant at h
  split at h
  · exact absurd h (by simp)
  · injection h with h1
    injection h1 with hp hs
    subst hp
    subst hs
    exact ⟨rfl, rfl⟩

/-! ### `_getParticipantId` characterization -/

theorem getParticipantId_ok (o : Oracle) (st : DBState) (pm : PMap) (cid : Nat)
    (name : String) (v : Option Nat) (pm' : PMap) (st' : DBState)
    (h : getParticipantId o st pm cid name = Except.ok (v, pm', st')) :
    lookupP pm' name = some v ∧
    (∀ n w, lookupP pm n = some w → lookupP pm' n = some w) ∧
    st'.conversations = st.conversations ∧
    st'.messages = st.messages ∧
    st'.reactions = st.reactions ∧
    st'.photos = st.photos ∧
    st'.videos = st.videos ∧
    st'.files = st.files ∧
    st'.audio_files = st.audio_files ∧
    st'.gifs = st.gifs ∧
    st'.shares = st.shares ∧
    st'.stickers = st.stickers ∧
    ((lookupP pm name = some v ∧ pm' = pm ∧ st' = st) ∨
      (lookupP pm name = none ∧ v = some (st.participants.length + 1) ∧
        pm' = insertP pm name v ∧
        st'.participants = st.participants ++
          [⟨st.participants.length + 1, cid, name, 0⟩])) := by
  unfold getParticipantId at h
  cases hl : lookupP pm name with
  | some w =>
    rw [hl] at h
    replace h : (Except.ok (w, pm, st) : Except String (Option Nat × PMap × DBState)) =
      Except.ok (v, pm', st') := h
    injection h with h1
    injection h1 with hv h2
    injection h2 with hpm hst
    subst hv
    subst hpm
    subst hst
    exact ⟨hl, fun n w2 hw => hw, rfl, rfl, rfl, rfl, rfl, rfl, rfl, rfl, rfl, rfl,
      Or.inl ⟨rfl, rfl, rfl⟩⟩
  | none =>
    rw [hl] at h
    cases hins : insertParticipant o st cid name false with
    | error e =>
      rw [hins] at h
      exact Except.noConfusion
        (show (Except.error e : Except String (Option Nat × PMap × DBState)) =
          Except.ok (v, pm', st') from h)
    | ok pr =>
      obtain ⟨pid, st₁⟩ := pr
      rw [hins] at h
      replace h : (Except.ok (some pid, insertP pm name (some pid), st₁) :
        Except String (Option Nat × PMap × DBState)) = Except.ok (v, pm', st') := h
      injection h with h1
      injection h1 with hv h2
      injection h2 with hpm hst
      subst hv
      subst hpm
      subst hst
      obtain ⟨hpid, hst1⟩ := insertParticipant_ok o st cid name false pid st₁ hins
      subst hpid
      subst hst1
      refine ⟨lookupP_insertP_self pm name _, ?_, rfl, rfl, rfl, rfl, rfl, rfl, rfl,
        rfl, rfl, rfl, Or.inr ⟨rfl, rfl, rfl, rfl⟩⟩
      intro n w hw
      have hne : name ≠ n := by
        intro hx
        rw [hx] at hl
        rw [hl] at hw
        exact Option.noConfusion hw
      rw [lookupP_insertP_ne pm name _ n hne]
      exact hw

/-! ### Table-preservation lemmas for the message sub-record loops -/

theorem insertReaction_ok (o : Oracle) (st : DBState) (mid : Nat) (uid : Option Nat)
    (r : String) (st' : DBState) (h : insertReaction o st mid uid r = Except.ok st') :
    st'.conversations = st.conversations ∧ st'.messages = st.messages ∧
    st'.participants = st.participants := by
  unfold insertReaction at h
  split at h
  · exact absurd h (by simp)
  · injection h with h1
    subst h1
    exact ⟨rfl, rfl, rfl⟩

theorem addAttachRow_frame (table : String) (mid : Nat) (fn : String) (st : DBState) :
    (addAttachRow table mid fn st).conversations = st.conversations ∧
    (addAttachRow table mid fn st).messages = st.messages ∧
    (addAttachRow table mid fn st).participants = st.participants := by
  unfold addAttachRow
  split <;> exact ⟨rfl, rfl, rfl⟩

theorem insertAttachment_ok (o : Oracle) (st : DBState) (table : String) (mid : Nat)
    (fn : String) (st' : DBState) (h : insertAttachment o st table mid fn = Except.ok st') :
    st'.conversations = st.conversations ∧ st'.messages = st.messages ∧
    st'.participants = st.participants := by
  unfold insertAttachment at h
  split at h
  · exact absurd h (by simp)
  · injection h with h1
    subst h1
    exact addAttachRow_frame table mid fn _

theorem saveReactions_frame (o : Oracle) (cid mid : Nat) (rs : List Reaction) :
    ∀ (pm : PMap) (st : DBState) (pm' : PMap) (st' : DBState),
      saveReactions o cid mid rs pm st = Except.ok (pm', st') →
      st'.conversations = st.conversations ∧ st'.messages = st.messages := by
  induction rs with
  | nil =>
    intro pm st pm' st' h
    injection h with h1
    injection h1 with hpm hst
    subst hst
    exact ⟨rfl, rfl⟩
  | cons r rest ih =>
    intro pm st pm' st' h
    rw [saveReactions] at h
    cases hg : getParticipantId o st pm cid r.actor with
    | error e =>
      rw [hg] at h
      exact Except.noConfusion (show (Except.error e : Except String (PMap × DBState)) =
        Except.ok (pm', st') from h)
    | ok trip =>
      obtain ⟨uid, pm₁, st₁⟩ := trip
      rw [hg] at h
      replace h : (do
          let st₂ ← insertReaction o st₁ mid uid r.reaction
          saveReactions o cid mid rest pm₁ st₂) = Except.ok (pm', st') := h
      cases hr : insertReaction o st₁ mid uid r.reaction with
      | error e =>
        rw [hr] at h
        exact Except.noConfusion (show (Except.error e : Except String (PMap × DBState)) =
          Except.ok (pm', st') from h)
      | ok st₂ =>
        rw [hr] at h
        replace h : saveReactions o cid mid rest pm₁ st₂ = Except.ok (pm', st') := h
        obtain ⟨hc, hm⟩ := ih pm₁ st₂ pm' st' h
        obtain ⟨hc1, hm1, _⟩ := insertReaction_ok o st₁ mid uid r.reaction st₂ hr
        obtain ⟨_, _, hcg, hmg, _⟩ := getParticipantId_ok o st pm cid r.actor uid pm₁ st₁ hg
        exact ⟨by rw [hc, hc1, hcg], by rw [hm, hm1, hmg]⟩

theorem saveAttachList_frame (o : Oracle) (table : String) (mid : Nat)
    (items : List Attachment) :
    ∀ (st st' : DBState), saveAttachList o table mid items st = Except.ok st' →
      st'.conversations = st.conversations ∧ st'.messages = st.messages ∧
      st'.participants = st.participants := by
  induction items with
  | nil =>
    intro st st' h
    injection h with h1
    subst h1
    exact ⟨rfl, rfl, rfl⟩
  | cons a rest ih =>
    intro st st' h
    rw [saveAttachList] at h
    cases ha : insertAttachment o st table mid (filenameOf a.uri) with
    | error e =>
      rw [ha] at h
      exact absurd h (by
        intro hx
        exact Except.noConfusion (show (Except.error e : Except String DBState) =
          Except.ok st' from hx))
    | ok st₁ =>
      rw [ha] at h
      have h2 : saveAttachList o table mid rest st₁ = Except.ok st' := h
      obtain ⟨hc, hm, hp⟩ := ih st₁ st' h2
      obtain ⟨hc1, hm1, hp1⟩ := insertAttachment_ok o st table mid _ st₁ ha
      exact ⟨by rw [hc, hc1], by rw [hm, hm1], by rw [hp, hp1]⟩

theorem saveShareOpt_frame (o : Oracle) (mid : Nat) (sh : Option ShareRec)
    (st st' : DBState) (h : saveShareOpt o mid sh st = Except.ok st') :
    st'.conversations = st.conversations ∧ st'.messages = st.messages ∧
    st'.participants = st.participants := by
  cases sh with
  | none =>
    rw [saveShareOpt] at h
    injection h with h1
    subst h1
    exact ⟨rfl, rfl, rfl⟩
  | some s =>
    rw [saveShareOpt] at h
    unfold insertShare at h
    split at h
    · exact absurd h (by simp)
    · injection h with h1
      subst h1
      exact ⟨rfl, rfl, rfl⟩

theorem saveStickerOpt_frame (o : Oracle) (mid : Nat) (uri : Option String)
    (st st' : DBState) (h : saveStickerOpt o mid uri st = Except.ok st') :
    st'.conversations = st.conversations ∧ st'.messages = st.messages ∧
    st'.participants = st.participants := by
  cases uri with
  | none =>
    rw [saveStickerOpt] at h
    injection h with h1
    subst h1
    exact ⟨rfl, rfl, rfl⟩
  | some u =>
    rw [saveStickerOpt] at h
    unfold insertSticker at h
    split at h
    · exact absurd h (by simp)
    · injection h with h1
      subst h1
      exact ⟨rfl, rfl, rfl⟩

theorem insertMessage_ok (o : Oracle) (st : DBState) (ts : Int) (mtype : String)
    (sender : Option Nat) (cid : Nat) (content : Option String) (st' : DBState)
    (h : insertMessage o st ts mtype sender cid content = Except.ok st') :
    st' = { st with
      messages := st.messages ++ [⟨st.messages.length + 1, ts, mtype, sender, cid, content⟩],
      ops := st.ops + 1 } := by
  unfold insertMessage at h
  split at h
  · exact absurd h (by simp)
  · injection h with h1
    exact h1.symm

theorem saveAttachAll_frame (o : Oracle) (mid : Nat) (item : MessageRec)
    (tables : List String) :
    ∀ (st st' : DBState), saveAttachAll o mid item tables st = Except.ok st' →
      st'.conversations = st.conversations ∧ st'.messages = st.messages ∧
      st'.participants = st.participants := by
  induction tables with
  | nil =>
    intro st st' h
    injection h with h1
    subst h1
    exact ⟨rfl, rfl, rfl⟩
  | cons t ts ih =>
    intro st st' h
    rw [saveAttachAll] at h
    cases ha : saveAttachList o t mid (msgAttach item t) st with
    | error e =>
      rw [ha] at h
      exact Except.noConfusion (show (Except.error e : Except String DBState) =
        Except.ok st' from h)
    | ok st₁ =>
      rw [ha] at h
      replace h : saveAttachAll o mid item ts st₁ = Except.ok st' := h
      obtain ⟨hc, hm, hp⟩ := ih st₁ st' h
      obtain ⟨hc1, hm1, hp1⟩ := saveAttachList_frame o t mid (msgAttach item t) st st₁ ha
      exact ⟨by rw [hc, hc1], by rw [hm, hm1], by rw [hp, hp1]⟩

theorem saveMessage_ok (o : Oracle) (cid : Nat) (item : MessageRec) (pm : PMap)
    (st : DBState) (pm' : PMap) (st' : DBState)
    (h : saveMessage o cid item pm st = Except.ok (pm', st')) :
    st'.conversations = st.conversations ∧
    ∃ sid, st'.messages = st.messages ++
      [⟨st.messages.length + 1, messageEpoch item, item.mtype, sid, cid, item.content⟩] := by
  unfold saveMessage at h
  cases hg : getParticipantId o st pm cid item.sender_name with
  | error e =>
    rw [hg] at h
    exact Except.noConfusion (show (Except.error e : Except String (PMap × DBState)) =
      Except.ok (pm', st') from h)
  | ok trip =>
    obtain ⟨sid, pm₁, st₁⟩ := trip
    rw [hg] at h
    replace h : (do
        let st₂ ← insertMessage o st₁ (messageEpoch item) item.mtype sid cid item.content
        let (pm₂, st₃) ← saveReactions o cid (st₁.messages.length + 1)
          (item.reactions.getD []) pm₁ st₂
        let st₄ ← saveAttachAll o (st₁.messages.length + 1) item attachTables st₃
        let st₉ ← saveShareOpt o (st₁.messages.length + 1) item.share st₄
        let stA ← saveStickerOpt o (st₁.messages.length + 1) item.sticker st₉
        pure (pm₂, stA)) = Except.ok (pm', st') := h
    cases hm1 : insertMessage o st₁ (messageEpoch item) item.mtype sid cid item.content with
    | error e =>
      rw [hm1] at h
      exact Except.noConfusion (show (Except.error e : Except String (PMap × DBState)) =
        Except.ok (pm', st') from h)
    | ok st₂ =>
      rw [hm1] at h
      replace h : (do
          let (pm₂, st₃) ← saveReactions o cid (st₁.messages.length + 1)
            (item.reactions.getD []) pm₁ st₂
          let st₄ ← saveAttachAll o (st₁.messages.length + 1) item attachTables st₃
          let st₉ ← saveShareOpt o (st₁.messages.length + 1) item.share st₄
          let stA ← saveStickerOpt o (st₁.messages.length + 1) item.sticker st₉
          pure (pm₂, stA)) = Except.ok (pm', st') := h
      cases hr : saveReactions o cid (st₁.messages.length + 1) (item.reactions.getD []) pm₁ st₂ with
      | error e =>
        rw [hr] at h
        exact Except.noConfusion (show (Except.error e : Except String (PMap × DBState)) =
          Except.ok (pm', st') from h)
      | ok pr =>
        obtain ⟨pm₂, st₃⟩ := pr
        rw [hr] at h
        replace h : (do
            let st₄ ← saveAttachAll o (st₁.messages.length + 1) item attachTables st₃
            let st₉ ← saveShareOpt o (st₁.messages.length + 1) item.share st₄
            let stA ← saveStickerOpt o (st₁.messages.length + 1) item.sticker st₉
            pure (pm₂, stA)) = Except.ok (pm', st') := h
        cases ha : saveAttachAll o (st₁.messages.length + 1) item attachTables st₃ with
        | error e =>
          rw [ha] at h
          exact Except.noConfusion (show (Except.error e : Except String (PMap × DBState)) =
            Except.ok (pm', st') from h)
        | ok st₄ =>
          rw [ha] at h
          replace h : (do
              let st₉ ← saveShareOpt o (st₁.messages.length + 1) item.share st₄
              let stA ← saveStickerOpt o (st₁.messages.length + 1) item.sticker st₉
              pure (pm₂, stA)) = Except.ok (pm', st') := h
          cases hsh : saveShareOpt o (st₁.messages.length + 1) item.share st₄ with
          | error e =>
            rw [hsh] at h
            exact Except.noConfusion (show (Except.error e : Except String (PMap × DBState)) =
              Except.ok (pm', st') from h)
          | ok st₉ =>
            rw [hsh] at h
            replace h : (do
                let stA ← saveStickerOpt o (st₁.messages.length + 1) item.sticker st₉
                pure (pm₂, stA)) = Except.ok (pm', st') := h
            cases hsk : saveStickerOpt o (st₁.messages.length + 1) item.sticker st₉ with
            | error e =>
              rw [hsk] at h
              exact Except.noConfusion (show (Except.error e : Except String (PMap × DBState)) =
                Except.ok (pm', st') from h)
            | ok stA =>
              rw [hsk] at h
              replace h : (Except.ok (pm₂, stA) : Except String (PMap × DBState)) =
                Except.ok (pm', st') := h
              injection h with h1
              injection h1 with hpm hst
              subst hst
              obtain ⟨_, _, hcg, hmg, _⟩ :=
                getParticipantId_ok o st pm cid item.sender_name sid pm₁ st₁ hg
              have hrec := insertMessage_ok o st₁ (messageEpoch item) item.mtype sid cid
                item.content st₂ hm1
              have hc2 : st₂.conversations = st₁.conversations := by rw [hrec]
              have hm2 : st₂.messages = st₁.messages ++
                  [⟨st₁.messages.length + 1, messageEpoch item, item.mtype, sid, cid,
                    item.content⟩] := by rw [hrec]
              obtain ⟨hrc, hrm⟩ := saveReactions_frame o cid (st₁.messages.length + 1)
                (item.reactions.getD []) pm₁ st₂ pm₂ st₃ hr
              obtain ⟨hac, ham, _⟩ := saveAttachAll_frame o (st₁.messages.length + 1) item
                attachTables st₃ st₄ ha
              obtain ⟨hshc, hshm, _⟩ := saveShareOpt_frame o (st₁.messages.length + 1)
                item.share st₄ st₉ hsh
              obtain ⟨hskc, hskm, _⟩ := saveStickerOpt_frame o (st₁.messages.length + 1)
                item.sticker st₉ stA hsk
              constructor
              · rw [hskc, hshc, hac, hrc, hc2]
                exact hcg
              · exact ⟨sid, by rw [hskm, hshm, ham, hrm, hm2, hmg]⟩

/-- A message whose millisecond timestamp is negative (1.5 seconds
before the epoch). -/
def msgNeg : MessageRec :=
  ⟨"x", -1500, "Generic", none, none, none, none, none, none, none, none, none⟩

/-- C6 counterexample: `timestamp_ms // 1000` is Python floor
division; at -1500 ms the code stores -2, while truncation (dropping
the fractional part) gives -1. -/
theorem messageEpoch_not_truncation :
    messageEpoch msgNeg = -2 ∧ Int.tdiv msgNeg.timestamp_ms 1000 = -1 ∧
    messageEpoch msgNeg ≠ Int.tdiv msgNeg.timestamp_ms 1000 := by
  refine ⟨by decide, by decide, by decide⟩

/-- C6 (amended): the stored timestamp of every persisted message is
the millisecond timestamp floor-divided by 1000; for nonnegative
timestamps (every real export) this coincides with truncation. -/
theorem saveMessage_timestamp (o : Oracle) (cid : Nat) (item : MessageRec) (pm : PMap)
    (st : DBState) (pm' : PMap) (st' : DBState)
    (h : saveMessage o cid item pm st = Except.ok (pm', st')) :
    st'.messages.length = st.messages.length + 1 ∧
    (st'.messages.getLastD ⟨0, 0, "", none, 0, none⟩).timestamp_s =
      Int.fdiv item.timestamp_ms 1000 ∧
    (0 ≤ item.timestamp_ms →
      Int.fdiv item.timestamp_ms 1000 = Int.tdiv item.timestamp_ms 1000) := by
  obtain ⟨_, sid, hmsg⟩ := saveMessage_ok o cid item pm st pm' st' h
  refine ⟨by rw [hmsg]; simp, ?_, ?_⟩
  · rw [hmsg, List.getLastD_concat]
    rfl
  · intro hpos
    exact Int.fdiv_eq_tdiv hpos (by norm_num)

/-- The state after persisting one concrete message. -/
def c6run : PMap × DBState :=
  (saveMessage neverFail 0 msgA [("alice", some 1)] emptyDB).toOption.getD ([], emptyDB)

/-- Witness for C6 (amended) on a concrete message insert. -/
theorem saveMessage_timestamp_witness :
    c6run.2.messages.length = emptyDB.messages.length + 1 ∧
    (c6run.2.messages.getLastD ⟨0, 0, "", none, 0, none⟩).timestamp_s =
      Int.fdiv msgA.timestamp_ms 1000 :=
  ⟨(saveMessage_timestamp neverFail 0 msgA [("alice", some 1)] emptyDB c6run.1 c6run.2 rfl).1,
    (saveMessage_timestamp neverFail 0 msgA [("alice", some 1)] emptyDB c6run.1 c6run.2 rfl).2.1⟩

/-! ### Attachment filenames (`_saveAttachement`, C7) -/

theorem splitChar_ne_nil (c : Char) (cs : List Char) : splitChar c cs ≠ [] := by
  induction cs with
  | nil => simp [splitChar]
  | cons x xs ih =>
    rw [splitChar]
    split
    · simp
    · cases hs : splitChar c xs with
      | nil => simp
      | cons s rest => simp

theorem splitChar_of_not_mem (c : Char) (cs : List Char) (h : c ∉ cs) :
    splitChar c cs = [cs] := by
  induction cs with
  | nil => rfl
  | cons x xs ih =>
    rw [splitChar, if_neg (fun hx => h (by rw [hx]; exact List.mem_cons_self c xs)),
      ih (fun hm => h (List.mem_cons_of_mem x hm))]

theorem splitChar_singleton (c : Char) (cs : List Char) (s : List Char)
    (h : splitChar c cs = [s]) : s = cs ∧ c ∉ cs := by
  induction cs generalizing s with
  | nil =>
    rw [splitChar] at h
    injection h with h1 h2
    exact ⟨h1.symm, by simp⟩
  | cons x xs ih =>
    rw [splitChar] at h
    split at h
    · next hx =>
      injection h with h1 h2
      exact absurd h2 (splitChar_ne_nil c xs)
    · next hx =>
      cases hs : splitChar c xs with
      | nil => exact absurd hs (splitChar_ne_nil c xs)
      | cons s₀ rest =>
        rw [hs] at h
        injection h with h1 h2
        subst h2
        obtain ⟨hxs, hnotin⟩ := ih s₀ hs
        subst hxs
        refine ⟨h1.symm, ?_⟩
        intro hmem
        rcases List.mem_cons.mp hmem with hc | hc
        · exact hx hc.symm
        · exact hnotin hc

theorem splitChar_last_slash (cs : List Char) (h : '/' ∈ cs) :
    ('/' :: (splitChar '/' cs).getLastD []) <:+ cs ∧
    '/' ∉ (splitChar '/' cs).getLastD [] := by
  induction cs with
  | nil => simp at h
  | cons x xs ih =>
    rw [splitChar]
    by_cases hx : x = '/'
    · rw [if_pos hx]
      rw [List.getLastD_cons]
      by_cases hmem : '/' ∈ xs
      · obtain ⟨hsuf, hnot⟩ := ih hmem
        exact ⟨hsuf.trans (List.suffix_cons x xs), hnot⟩
      · rw [splitChar_of_not_mem '/' xs hmem]
        subst hx
        exact ⟨List.suffix_refl _, hmem⟩
    · rw [if_neg hx]
      have hmem : '/' ∈ xs := by
        rcases List.mem_cons.mp h with hc | hc
        · exact absurd hc.symm hx
        · exact hc
      obtain ⟨hsuf, hnot⟩ := ih hmem
      cases hs : splitChar '/' xs with
      | nil => exact absurd hs (splitChar_ne_nil '/' xs)
      | cons s rest =>
        rw [hs] at hsuf hnot
        show ('/' :: ((x :: s) :: rest).getLastD []) <:+ x :: xs ∧
          '/' ∉ ((x :: s) :: rest).getLastD []
        cases rest with
        | nil =>
          obtain ⟨heq, hno⟩ := splitChar_singleton '/' xs s hs
          exact absurd hmem hno
        | cons r rs =>
          rw [List.getLastD_cons, List.getLastD_cons]
          rw [List.getLastD_cons, List.getLastD_cons] at hsuf hnot
          exact ⟨hsuf.trans (List.suffix_cons x xs), hnot⟩

/-- C7 counterexample: a URI with no `'/'` at all is stored whole —
the attachment row holds the full URI. -/
theorem filenameOf_full_uri :
    filenameOf "img.jpg" = "img.jpg" ∧
    ((saveAttachList neverFail "photos" 1 [⟨"img.jpg"⟩] emptyDB).toOption.getD
      emptyDB).photos = [⟨1, "img.jpg"⟩] :=
  ⟨rfl, rfl⟩

/-- C7 (amended): the persisted attachment filename is the last
`'/'`-separated segment of the source URI — when the URI contains a
`'/'` the stored value is exactly the slash-free suffix after the last
`'/'` (in particular a proper substring), and when it contains none
the whole URI is stored. -/
theorem filenameOf_last_segment :
    (∀ uri : String, '/' ∈ uri.data →
      ('/' :: (filenameOf uri).data) <:+ uri.data ∧ '/' ∉ (filenameOf uri).data) ∧
    (∀ uri : String, '/' ∉ uri.data → filenameOf uri = uri) := by
  constructor
  · intro uri h
    exact splitChar_last_slash uri.data h
  · intro uri h
    unfold filenameOf
    rw [splitChar_of_not_mem '/' uri.data h]
    rfl

/-- Witness for C7 (amended) at the URI "photos/img_1.jpg". -/
theorem filenameOf_last_segment_witness :
    ('/' :: (filenameOf "photos/img_1.jpg").data) <:+ "photos/img_1.jpg".data ∧
    '/' ∉ (filenameOf "photos/img_1.jpg").data :=
  filenameOf_last_segment.1 "photos/img_1.jpg" (by decide)

/-! ### Participant identity (C4) -/

/-- Number of participant rows for a given conversation and name. -/
def countRow (st : DBState) (cid : Nat) (n : String) : Nat :=
  (st.participants.filter fun r => decide (r.convo_id = cid ∧ r.name = n)).length

theorem countRow_append_hit (st : DBState) (cid : Nat) (n : String) (pid cur : Nat)
    (st₁ : DBState)
    (hp : st₁.participants = st.participants ++ [⟨pid, cid, n, cur⟩]) :
    countRow st₁ cid n = countRow st cid n + 1 := by
  unfold countRow
  rw [hp, List.filter_append]
  simp

theorem countRow_append_miss (st : DBState) (cid : Nat) (n : String) (pid cur : Nat)
    (m : String) (st₁ : DBState) (hne : n ≠ m)
    (hp : st₁.participants = st.participants ++ [⟨pid, cid, n, cur⟩]) :
    countRow st₁ cid m = countRow st cid m := by
  unfold countRow
  rw [hp, List.filter_append]
  simp [hne]

/-- C4: during persistence of one conversation, every sequence of
participant references (roster entry already mapped, message sender or
reaction actor) resolved through `_getParticipantId` assigns exactly
one surrogate id per name: references to the same name return the same
id (the one cached in the final map), a name absent from the map is
inserted exactly once as a not-current participant row, a name already
mapped gets no new row, and every row added is not-current. -/
theorem processNames_spec (o : Oracle) (cid : Nat) (names : List String) :
    ∀ (pm : PMap) (st : DBState) (ids : List (Option Nat)) (pm' : PMap) (st' : DBState),
      processNames o cid names pm st = Except.ok (ids, pm', st') →
      ids.length = names.length ∧
      (∀ p ∈ names.zip ids, lookupP pm' p.1 = some p.2) ∧
      (∀ n w, lookupP pm n = some w → lookupP pm' n = some w) ∧
      (∀ n, lookupP pm n = none → n ∈ names →
        countRow st' cid n = countRow st cid n + 1) ∧
      (∀ n w, lookupP pm n = some w → countRow st' cid n = countRow st cid n) ∧
      (∀ r ∈ st'.participants, r ∈ st.participants ∨ r.current = 0) := by
  induction names with
  | nil =>
    intro pm st ids pm' st' h
    replace h : (Except.ok ([], pm, st) :
      Except String (List (Option Nat) × PMap × DBState)) = Except.ok (ids, pm', st') := h
    injection h with h1
    injection h1 with hi h2
    injection h2 with hpm hst
    subst hi
    subst hpm
    subst hst
    exact ⟨rfl, by simp, fun n w hw => hw, fun n hn hmem => by simp at hmem,
      fun n w hw => rfl, fun r hr => Or.inl hr⟩
  | cons n ns ih =>
    intro pm st ids pm' st' h
    rw [processNames] at h
    cases hg : getParticipantId o st pm cid n with
    | error e =>
      rw [hg] at h
      exact Except.noConfusion
        (show (Except.error e : Except String (List (Option Nat) × PMap × DBState)) =
          Except.ok (ids, pm', st') from h)
    | ok trip =>
      obtain ⟨v, pm₁, st₁⟩ := trip
      rw [hg] at h
      replace h : (do
          let (ids₂, pm₂, st₂) ← processNames o cid ns pm₁ st₁
          pure ((v :: ids₂ : List (Option Nat)), pm₂, st₂)) = Except.ok (ids, pm', st') := h
      cases hp : processNames o cid ns pm₁ st₁ with
      | error e =>
        rw [hp] at h
        exact Except.noConfusion
          (show (Except.error e : Except String (List (Option Nat) × PMap × DBState)) =
            Except.ok (ids, pm', st') from h)
      | ok tr =>
        obtain ⟨ids₁, pm₂, st₂⟩ := tr
        rw [hp] at h
        replace h : (Except.ok (v :: ids₁, pm₂, st₂) :
          Except String (List (Option Nat) × PMap × DBState)) = Except.ok (ids, pm', st') := h
        injection h with h1
        injection h1 with hi h2
        injection h2 with hpm hst
        subst hi
        subst hpm
        subst hst
        obtain ⟨hlen, hzip, hmono, hnew, hold, hcur⟩ := ih pm₁ st₁ ids₁ pm₂ st₂ hp
        obtain ⟨hLk, hGmono, _, _, _, _, _, _, _, _, _, _, hcase⟩ :=
          getParticipantId_ok o st pm cid n v pm₁ st₁ hg
        refine ⟨by simp [hlen], ?_, ?_, ?_, ?_, ?_⟩
        · intro p hpmem
          rw [List.zip_cons_cons] at hpmem
          rcases List.mem_cons.mp hpmem with hh | hh
          · subst hh
            exact hmono n v hLk
          · exact hzip p hh
        · intro m w hw
          exact hmono m w (hGmono m w hw)
        · intro m hmnone hmmem
          rcases List.mem_cons.mp hmmem with hh | hh
          · subst hh
            rcases hcase with ⟨hfound, _, _⟩ | ⟨_, _, _, hpart⟩
            · rw [hmnone] at hfound
              exact Option.noConfusion hfound
            · have h1 : countRow st₁ cid m = countRow st cid m + 1 :=
                countRow_append_hit st cid m _ 0 st₁ hpart
              have h2 : countRow st₂ cid m = countRow st₁ cid m := hold m v hLk
              rw [h2, h1]
          · rcases hcase with ⟨_, hpm1, hst1⟩ | ⟨hGnone, _, hpm1, hpart⟩
            · subst hpm1
              subst hst1
              exact hnew m hmnone hh
            · by_cases hnm : n = m
              · subst hnm
                rw [hmnone] at hGnone
                have h2 : countRow st₂ cid n = countRow st₁ cid n := hold n v hLk
                have h1 : countRow st₁ cid n = countRow st cid n + 1 :=
                  countRow_append_hit st cid n _ 0 st₁ hpart
                rw [h2, h1]
              · have hm1 : lookupP pm₁ m = none := by
                  rw [hpm1, lookupP_insertP_ne pm n v m hnm]
                  exact hmnone
                have h1 : countRow st₁ cid m = countRow st cid m :=
                  countRow_append_miss st cid n _ 0 m st₁ hnm hpart
                rw [hnew m hm1 hh, h1]
        · intro m w hw
          rcases hcase with ⟨_, hpm1, hst1⟩ | ⟨hGnone, _, hpm1, hpart⟩
          · subst hpm1
            subst hst1
            exact hold m w hw
          · have hnm : n ≠ m := by
              intro hx
              rw [hx] at hGnone
              rw [hGnone] at hw
              exact Option.noConfusion hw
            have hm1 : lookupP pm₁ m = some w := by
              rw [hpm1, lookupP_insertP_ne pm n v m hnm]
              exact hw
            have h1 : countRow st₁ cid m = countRow st cid m :=
              countRow_append_miss st cid n _ 0 m st₁ hnm hpart
            rw [hold m w hm1, h1]
        · intro r hr
          rcases hcur r hr with hr1 | hr1
          · rcases hcase with ⟨_, _, hst1⟩ | ⟨_, _, _, hpart⟩
            · subst hst1
              exact Or.inl hr1
            · rw [hpart] at hr1
              rcases List.mem_append.mp hr1 with hr2 | hr2
              · exact Or.inl hr2
              · right
                rw [List.mem_singleton] at hr2
                rw [hr2]
          · exact Or.inr hr1

/-- A database already holding one current participant row for alice. -/
def stW : DBState := ⟨[], [⟨1, 0, "alice", 1⟩], [], [], [], [], [], [], [], [], [], 0⟩

/-- Three references resolved in sequence: a new reactor, a mapped
sender, the same reactor again. -/
def c4run : List (Option Nat) × PMap × DBState :=
  (processNames neverFail 0 ["carol", "alice", "carol"] [("alice", some 1)] stW).toOption.getD
    ([], [], stW)

/-- Witness for C4: carol gets the single id 2, cached for the second
reference, and exactly one new (not-current) row. -/
theorem processNames_spec_witness :
    lookupP c4run.2.1 "carol" = some (some 2) ∧
    countRow c4run.2.2 0 "carol" = countRow stW 0 "carol" + 1 :=
  ⟨(processNames_spec neverFail 0 ["carol", "alice", "carol"] [("alice", some 1)] stW
      c4run.1 c4run.2.1 c4run.2.2 rfl).2.1 ("carol", some 2) (by decide),
    (processNames_spec neverFail 0 ["carol", "alice", "carol"] [("alice", some 1)] stW
      c4run.1 c4run.2.1 c4run.2.2 rfl).2.2.2.1 "carol" rfl (by decide)⟩

/-! ### All-or-nothing persistence (C5)

A successful run is oracle-independent: every value computed along the
insert chain is the same as in the failure-free run, so a commit is
always the commit of the complete conversation. -/

theorem insertConversation_erase (o : Oracle) (st : DBState) (cid : Nat)
    (title ctype path : String) (st' : DBState)
    (h : insertConversation o st cid title ctype path = Except.ok st') :
    insertConversation neverFail st cid title ctype path = Except.ok st' := by
  unfold insertConversation at h ⊢
  split at h
  · exact absurd h (by simp)
  · exact h

theorem insertParticipant_erase (o : Oracle) (st : DBState) (cid : Nat) (name : String)
    (cur : Bool) (out : Nat × DBState)
    (h : insertParticipant o st cid name cur = Except.ok out) :
    insertParticipant neverFail st cid name cur = Except.ok out := by
  unfold insertParticipant at h ⊢
  split at h
  · exact absurd h (by simp)
  · exact h

theorem insertMessage_erase (o : Oracle) (st : DBState) (ts : Int) (mtype : String)
    (sender : Option Nat) (cid : Nat) (content : Option String) (st' : DBState)
    (h : insertMessage o st ts mtype sender cid content = Except.ok st') :
    insertMessage neverFail st ts mtype sender cid content = Except.ok st' := by
  unfold insertMessage at h ⊢
  split at h
  · exact absurd h (by simp)
  · exact h

theorem insertReaction_erase (o : Oracle) (st : DBState) (mid : Nat) (uid : Option Nat)
    (r : String) (st' : DBState) (h : insertReaction o st mid uid r = Except.ok st') :
    insertReaction neverFail st mid uid r = Except.ok st' := by
  unfold insertReaction at h ⊢
  split at h
  · exact absurd h (by simp)
  · exact h

theorem insertAttachment_erase (o : Oracle) (st : DBState) (table : String) (mid : Nat)
    (fn : String) (st' : DBState) (h : insertAttachment o st table mid fn = Except.ok st') :
    insertAttachment neverFail st table mid fn = Except.ok st' := by
  unfold insertAttachment at h ⊢
  split at h
  · exact absurd h (by simp)
  · exact h

theorem insertShare_erase (o : Oracle) (st : DBState) (mid : Nat) (link text : Option String)
    (st' : DBState) (h : insertShare o st mid link text = Except.ok st') :
    insertShare neverFail st mid link text = Except.ok st' := by
  unfold insertShare at h ⊢
  split at h
  · exact absurd h (by simp)
  · exact h

theorem insertSticker_erase (o : Oracle) (st : DBState) (mid : Nat) (path : String)
    (st' : DBState) (h : insertSticker o st mid path = Except.ok st') :
    insertSticker neverFail st mid path = Except.ok st' := by
  unfold insertSticker at h ⊢
  split at h
  · exact absurd h (by simp)
  · exact h

theorem getParticipantId_erase (o : Oracle) (st : DBState) (pm : PMap) (cid : Nat)
    (name : String) (out : Option Nat × PMap × DBState)
    (h : getParticipantId o st pm cid name = Except.ok out) :
    getParticipantId neverFail st pm cid name = Except.ok out := by
  unfold getParticipantId at h ⊢
  cases hl : lookupP pm name with
  | some v =>
    rw [hl] at h
    exact h
  | none =>
    rw [hl] at h
    cases hins : insertParticipant o st cid name false with
    | error e =>
      rw [hins] at h
      exact Except.noConfusion
        (show (Except.error e : Except String (Option Nat × PMap × DBState)) =
          Except.ok out from h)
    | ok pr =>
      rw [hins] at h
      rw [insertParticipant_erase o st cid name false pr hins]
      exact h

theorem saveReactions_erase (o : Oracle) (cid mid : Nat) (rs : List Reaction) :
    ∀ (pm : PMap) (st : DBState) (out : PMap × DBState),
      saveReactions o cid mid rs pm st = Except.ok out →
      saveReactions neverFail cid mid rs pm st = Except.ok out := by
  induction rs with
  | nil => intro pm st out h; exact h
  | cons r rest ih =>
    intro pm st out h
    rw [saveReactions] at h ⊢
    cases hg : getParticipantId o st pm cid r.actor with
    | error e =>
      rw [hg] at h
      exact Except.noConfusion (show (Except.error e : Except String (PMap × DBState)) =
        Except.ok out from h)
    | ok trip =>
      obtain ⟨uid, pm₁, st₁⟩ := trip
      rw [hg] at h
      rw [getParticipantId_erase o st pm cid r.actor (uid, pm₁, st₁) hg]
      replace h : (do
          let st₂ ← insertReaction o st₁ mid uid r.reaction
          saveReactions o cid mid rest pm₁ st₂) = Except.ok out := h
      show (do
          let st₂ ← insertReaction neverFail st₁ mid uid r.reaction
          saveReactions neverFail cid mid rest pm₁ st₂) = Except.ok out
      cases hr : insertReaction o st₁ mid uid r.reaction with
      | error e =>
        rw [hr] at h
        exact Except.noConfusion (show (Except.error e : Except String (PMap × DBState)) =
          Except.ok out from h)
      | ok st₂ =>
        rw [hr] at h
        rw [insertReaction_erase o st₁ mid uid r.reaction st₂ hr]
        replace h : saveReactions o cid mid rest pm₁ st₂ = Except.ok out := h
        show saveReactions neverFail cid mid rest pm₁ st₂ = Except.ok out
        exact ih pm₁ st₂ out h

theorem saveAttachList_erase (o : Oracle) (table : String) (mid : Nat)
    (items : List Attachment) :
    ∀ (st : DBState) (out : DBState),
      saveAttachList o table mid items st = Except.ok out →
      saveAttachList neverFail table mid items st = Except.ok out := by
  induction items with
  | nil => intro st out h; exact h
  | cons a rest ih =>
    intro st out h
    rw [saveAttachList] at h ⊢
    cases ha : insertAttachment o st table mid (filenameOf a.uri) with
    | error e =>
      rw [ha] at h
      exact Except.noConfusion (show (Except.error e : Except String DBState) =
        Except.ok out from h)
    | ok st₁ =>
      rw [ha] at h
      rw [insertAttachment_erase o st table mid (filenameOf a.uri) st₁ ha]
      replace h : saveAttachList o table mid rest st₁ = Except.ok out := h
      show saveAttachList neverFail table mid rest st₁ = Except.ok out
      exact ih st₁ out h

theorem saveAttachAll_erase (o : Oracle) (mid : Nat) (item : MessageRec)
    (tables : List String) :
    ∀ (st : DBState) (out : DBState),
      saveAttachAll o mid item tables st = Except.ok out →
      saveAttachAll neverFail mid item tables st = Except.ok out := by
  induction tables with
  | nil => intro st out h; exact h
  | cons t ts ih =>
    intro st out h
    rw [saveAttachAll] at h ⊢
    cases ha : saveAttachList o t mid (msgAttach item t) st with
    | error e =>
      rw [ha] at h
      exact Except.noConfusion (show (Except.error e : Except String DBState) =
        Except.ok out from h)
    | ok st₁ =>
      rw [ha] at h
      rw [saveAttachList_erase o t mid (msgAttach item t) st st₁ ha]
      replace h : saveAttachAll o mid item ts st₁ = Except.ok out := h
      show saveAttachAll neverFail mid item ts st₁ = Except.ok out
      exact ih st₁ out h

theorem saveShareOpt_erase (o : Oracle) (mid : Nat) (sh : Option ShareRec)
    (st : DBState) (out : DBState) (h : saveShareOpt o mid sh st = Except.ok out) :
    saveShareOpt neverFail mid sh st = Except.ok out := by
  cases sh with
  | none => exact h
  | some s =>
    rw [saveShareOpt] at h ⊢
    exact insertShare_erase o st mid s.link s.share_text out h

theorem saveStickerOpt_erase (o : Oracle) (mid : Nat) (uri : Option String)
    (st : DBState) (out : DBState) (h : saveStickerOpt o mid uri st = Except.ok out) :
    saveStickerOpt neverFail mid uri st = Except.ok out := by
  cases uri with
  | none => exact h
  | some u =>
    rw [saveStickerOpt] at h ⊢
    exact insertSticker_erase o st mid u out h

theorem saveMessage_erase (o : Oracle) (cid : Nat) (item : MessageRec) (pm : PMap)
    (st : DBState) (out : PMap × DBState)
    (h : saveMessage o cid item pm st = Except.ok out) :
    saveMessage neverFail cid item pm st = Except.ok out := by
  unfold saveMessage at h ⊢
  cases hg : getParticipantId o st pm cid item.sender_name with
  | error e =>
    rw [hg] at h
    exact Except.noConfusion (show (Except.error e : Except String (PMap × DBState)) =
      Except.ok out from h)
  | ok trip =>
    obtain ⟨sid, pm₁, st₁⟩ := trip
    rw [hg] at h
    rw [getParticipantId_erase o st pm cid item.sender_name (sid, pm₁, st₁) hg]
    replace h : (do
        let st₂ ← insertMessage o st₁ (messageEpoch item) item.mtype sid cid item.content
        let (pm₂, st₃) ← saveReactions o cid (st₁.messages.length + 1)
          (item.reactions.getD []) pm₁ st₂
        let st₄ ← saveAttachAll o (st₁.messages.length + 1) item attachTables st₃
        let st₉ ← saveShareOpt o (st₁.messages.length + 1) item.share st₄
        let stA ← saveStickerOpt o (st₁.messages.length + 1) item.sticker st₉
        pure (pm₂, stA)) = Except.ok out := h
    show (do
        let st₂ ← insertMessage neverFail st₁ (messageEpoch item) item.mtype sid cid item.content
        let (pm₂, st₃) ← saveReactions neverFail cid (st₁.messages.length + 1)
          (item.reactions.getD []) pm₁ st₂
        let st₄ ← saveAttachAll neverFail (st₁.messages.length + 1) item attachTables st₃
        let st₉ ← saveShareOpt neverFail (st₁.messages.length + 1) item.share st₄
        let stA ← saveStickerOpt neverFail (st₁.messages.length + 1) item.sticker st₉
        pure (pm₂, stA)) = Except.ok out
    cases hm1 : insertMessage o st₁ (messageEpoch item) item.mtype sid cid item.content with
    | error e =>
      rw [hm1] at h
      exact Except.noConfusion (show (Except.error e : Except String (PMap × DBState)) =
        Except.ok out from h)
    | ok st₂ =>
      rw [hm1] at h
      rw [insertMessage_erase o st₁ (messageEpoch item) item.mtype sid cid item.content st₂ hm1]
      replace h : (do
          let (pm₂, st₃) ← saveReactions o cid (st₁.messages.length + 1)
            (item.reactions.getD []) pm₁ st₂
          let st₄ ← saveAttachAll o (st₁.messages.length + 1) item attachTables st₃
          let st₉ ← saveShareOpt o (st₁.messages.length + 1) item.share st₄
          let stA ← saveStickerOpt o (st₁.messages.length + 1) item.sticker st₉
          pure (pm₂, stA)) = Except.ok out := h
      show (do
          let (pm₂, st₃) ← saveReactions neverFail cid (st₁.messages.length + 1)
            (item.reactions.getD []) pm₁ st₂
          let st₄ ← saveAttachAll neverFail (st₁.messages.length + 1) item attachTables st₃
          let st₉ ← saveShareOpt neverFail (st₁.messages.length + 1) item.share st₄
          let stA ← saveStickerOpt neverFail (st₁.messages.length + 1) item.sticker st₉
          pure (pm₂, stA)) = Except.ok out
      cases hr : saveReactions o cid (st₁.messages.length + 1) (item.reactions.getD []) pm₁ st₂ with
      | error e =>
        rw [hr] at h
        exact Except.noConfusion (show (Except.error e : Except String (PMap × DBState)) =
          Except.ok out from h)
      | ok pr =>
        obtain ⟨pm₂, st₃⟩ := pr
        rw [hr] at h
        rw [saveReactions_erase o cid (st₁.messages.length + 1) (item.reactions.getD [])
          pm₁ st₂ (pm₂, st₃) hr]
        replace h : (do
            let st₄ ← saveAttachAll o (st₁.messages.length + 1) item attachTables st₃
            let st₉ ← saveShareOpt o (st₁.messages.length + 1) item.share st₄
            let stA ← saveStickerOpt o (st₁.messages.length + 1) item.sticker st₉
            pure (pm₂, stA)) = Except.ok out := h
        show (do
            let st₄ ← saveAttachAll neverFail (st₁.messages.length + 1) item attachTables st₃
            let st₉ ← saveShareOpt neverFail (st₁.messages.length + 1) item.share st₄
            let stA ← saveStickerOpt neverFail (st₁.messages.length + 1) item.sticker st₉
            pure (pm₂, stA)) = Except.ok out
        cases ha : saveAttachAll o (st₁.messages.length + 1) item attachTables st₃ with
        | error e =>
          rw [ha] at h
          exact Except.noConfusion (show (Except.error e : Except String (PMap × DBState)) =
            Except.ok out from h)
        | ok st₄ =>
          rw [ha] at h
          rw [saveAttachAll_erase o (st₁.messages.length + 1) item attachTables st₃ st₄ ha]
          replace h : (do
              let st₉ ← saveShareOpt o (st₁.messages.length + 1) item.share st₄
              let stA ← saveStickerOpt o (st₁.messages.length + 1) item.sticker st₉
              pure (pm₂, stA)) = Except.ok out := h
          show (do
              let st₉ ← saveShareOpt neverFail (st₁.messages.length + 1) item.share st₄
              let stA ← saveStickerOpt neverFail (st₁.messages.length + 1) item.sticker st₉
              pure (pm₂, stA)) = Except.ok out
          cases hsh : saveShareOpt o (st₁.messages.length + 1) item.share st₄ with
          | error e =>
            rw [hsh] at h
            exact Except.noConfusion (show (Except.error e : Except String (PMap × DBState)) =
              Except.ok out from h)
          | ok st₉ =>
            rw [hsh] at h
            rw [saveShareOpt_erase o (st₁.messages.length + 1) item.share st₄ st₉ hsh]
            replace h : (do
                let stA ← saveStickerOpt o (st₁.messages.length + 1) item.sticker st₉
                pure (pm₂, stA)) = Except.ok out := h
            show (do
                let stA ← saveStickerOpt neverFail (st₁.messages.length + 1) item.sticker st₉
                pure (pm₂, stA)) = Except.ok out
            cases hsk : saveStickerOpt o (st₁.messages.length + 1) item.sticker st₉ with
            | error e =>
              rw [hsk] at h
              exact Except.noConfusion (show (Except.error e : Except String (PMap × DBState)) =
                Except.ok out from h)
            | ok stA =>
              rw [hsk] at h
              rw [saveStickerOpt_erase o (st₁.messages.length + 1) item.sticker st₉ stA hsk]
              exact h

theorem saveMessages_erase (o : Oracle) (cid : Nat) (ms : List MessageRec) :
    ∀ (pm : PMap) (st : DBState) (out : PMap × DBState),
      saveMessages o cid ms pm st = Except.ok out →
      saveMessages neverFail cid ms pm st = Except.ok out := by
  induction ms with
  | nil => intro pm st out h; exact h
  | cons m rest ih =>
    intro pm st out h
    rw [saveMessages] at h ⊢
    cases hm : saveMessage o cid m pm st with
    | error e =>
      rw [hm] at h
      exact Except.noConfusion (show (Except.error e : Except String (PMap × DBState)) =
        Except.ok out from h)
    | ok pr =>
      obtain ⟨pm₁, st₁⟩ := pr
      rw [hm] at h
      rw [saveMessage_erase o cid m pm st (pm₁, st₁) hm]
      replace h : saveMessages o cid rest pm₁ st₁ = Except.ok out := h
      show saveMessages neverFail cid rest pm₁ st₁ = Except.ok out
      exact ih pm₁ st₁ out h

theorem saveRoster_erase (o : Oracle) (cid : Nat) (pmIn : PMap) :
    ∀ (st : DBState) (out : PMap × DBState),
      saveRoster o cid pmIn st = Except.ok out →
      saveRoster neverFail cid pmIn st = Except.ok out := by
  induction pmIn with
  | nil => intro st out h; exact h
  | cons entry rest ih =>
    intro st out h
    obtain ⟨name, v⟩ := entry
    rw [saveRoster] at h ⊢
    cases hip : insertParticipant o st cid name true with
    | error e =>
      rw [hip] at h
      exact Except.noConfusion (show (Except.error e : Except String (PMap × DBState)) =
        Except.ok out from h)
    | ok pr =>
      obtain ⟨pid, st₁⟩ := pr
      rw [hip] at h
      rw [insertParticipant_erase o st cid name true (pid, st₁) hip]
      replace h : (do
          let (rest₁, st₂) ← saveRoster o cid rest st₁
          pure (((name, some pid) : String × Option Nat) :: rest₁, st₂)) = Except.ok out := h
      show (do
          let (rest₁, st₂) ← saveRoster neverFail cid rest st₁
          pure (((name, some pid) : String × Option Nat) :: rest₁, st₂)) = Except.ok out
      cases hrr : saveRoster o cid rest st₁ with
      | error e =>
        rw [hrr] at h
        exact Except.noConfusion (show (Except.error e : Except String (PMap × DBState)) =
          Except.ok out from h)
      | ok pr2 =>
        rw [hrr] at h
        rw [ih st₁ pr2 hrr]
        exact h

theorem saveConversation_erase (o : Oracle) (item : Conversation) (st : DBState)
    (out : Conversation × DBState)
    (h : saveConversation o item st = Except.ok out) :
    saveConversation neverFail item st = Except.ok out := by
  obtain ⟨dirI, metaI, pmI, chI, msI, idI⟩ := item
  unfold saveConversation at h ⊢
  cases metaI with
  | none =>
    exact Except.noConfusion
      (show (Except.error "KeyError" : Except String (Conversation × DBState)) =
        Except.ok out from h)
  | some m =>
    replace h : (do
        let st₁ ← insertConversation o st idI m.1 m.2.1 m.2.2
        let (pm₁, st₂) ← saveRoster o idI pmI st₁
        let (pm₂, st₃) ← saveMessages o idI msI pm₁ st₂
        pure ((⟨dirI, some m, pm₂, chI, msI, idI⟩ : Conversation), st₃)) = Except.ok out := h
    show (do
        let st₁ ← insertConversation neverFail st idI m.1 m.2.1 m.2.2
        let (pm₁, st₂) ← saveRoster neverFail idI pmI st₁
        let (pm₂, st₃) ← saveMessages neverFail idI msI pm₁ st₂
        pure ((⟨dirI, some m, pm₂, chI, msI, idI⟩ : Conversation), st₃)) = Except.ok out
    cases hic : insertConversation o st idI m.1 m.2.1 m.2.2 with
    | error e =>
      rw [hic] at h
      exact Except.noConfusion (show (Except.error e : Except String (Conversation × DBState)) =
        Except.ok out from h)
    | ok st₁ =>
      rw [hic] at h
      rw [insertConversation_erase o st idI m.1 m.2.1 m.2.2 st₁ hic]
      replace h : (do
          let (pm₁, st₂) ← saveRoster o idI pmI st₁
          let (pm₂, st₃) ← saveMessages o idI msI pm₁ st₂
          pure ((⟨dirI, some m, pm₂, chI, msI, idI⟩ : Conversation), st₃)) = Except.ok out := h
      show (do
          let (pm₁, st₂) ← saveRoster neverFail idI pmI st₁
          let (pm₂, st₃) ← saveMessages neverFail idI msI pm₁ st₂
          pure ((⟨dirI, some m, pm₂, chI, msI, idI⟩ : Conversation), st₃)) = Except.ok out
      cases hr : saveRoster o idI pmI st₁ with
      | error e =>
        rw [hr] at h
        exact Except.noConfusion (show (Except.error e : Except String (Conversation × DBState)) =
          Except.ok out from h)
      | ok pr1 =>
        obtain ⟨pm₁, st₂⟩ := pr1
        rw [hr] at h
        rw [saveRoster_erase o idI pmI st₁ (pm₁, st₂) hr]
        replace h : (do
            let (pm₂, st₃) ← saveMessages o idI msI pm₁ st₂
            pure ((⟨dirI, some m, pm₂, chI, msI, idI⟩ : Conversation), st₃)) = Except.ok out := h
        show (do
            let (pm₂, st₃) ← saveMessages neverFail idI msI pm₁ st₂
            pure ((⟨dirI, some m, pm₂, chI, msI, idI⟩ : Conversation), st₃)) = Except.ok out
        cases hms : saveMessages o idI msI pm₁ st₂ with
        | error e =>
          rw [hms] at h
          exact Except.noConfusion
            (show (Except.error e : Except String (Conversation × DBState)) =
              Except.ok out from h)
        | ok pr2 =>
          rw [hms] at h
          rw [saveMessages_erase o idI msI pm₁ st₂ pr2 hms]
          exact h

theorem save_erase (o : Oracle) (conn : Connection) (item : Conversation)
    (out : Conversation × Connection) (h : save o conn item = Except.ok out) :
    save neverFail conn item = Except.ok out := by
  unfold save at h ⊢
  cases hc : saveConversation o item conn.committed with
  | error e =>
    rw [hc] at h
    exact Except.noConfusion (show (Except.error e : Except String (Conversation × Connection)) =
      Except.ok out from h)
  | ok pr =>
    rw [hc] at h
    rw [saveConversation_erase o item conn.committed pr hc]
    exact h

/-- C5: `save` is all-or-nothing.  Either the run fails — the
exception propagates before `db.commit()`, so no new connection state
is produced and the committed store is the caller's unchanged one — or
it succeeds and equals the failure-free run, i.e. the commit is
exactly the complete conversation (conversation row, participants,
messages, reactions, attachments, shares, stickers) at once. -/
theorem save_all_or_nothing (o : Oracle) (conn : Connection) (item : Conversation) :
    save o conn item = save neverFail conn item ∨
    (save o conn item).isOk = false := by
  cases hs : save o conn item with
  | error e => exact Or.inr rfl
  | ok out =>
    left
    rw [save_erase o conn item out hs]

/-! ### Clean slate and re-import (C8) -/

theorem insertConversation_ok (o : Oracle) (st : DBState) (cid : Nat)
    (title ctype path : String) (st₁ : DBState)
    (h : insertConversation o st cid title ctype path = Except.ok st₁) :
    st₁ = { st with
      conversations := st.conversations ++ [⟨cid, title, ctype, path⟩],
      ops := st.ops + 1 } := by
  unfold insertConversation at h
  split at h
  · exact absurd h (by simp)
  · injection h with h1
    exact h1.symm

theorem saveRoster_frame (o : Oracle) (cid : Nat) (pmIn : PMap) :
    ∀ (st : DBState) (pm' : PMap) (st' : DBState),
      saveRoster o cid pmIn st = Except.ok (pm', st') →
      st'.conversations = st.conversations ∧ st'.messages = st.messages := by
  induction pmIn with
  | nil =>
    intro st pm' st' h
    replace h : (Except.ok (([] : PMap), st) : Except String (PMap × DBState)) =
      Except.ok (pm', st') := h
    injection h with h1
    injection h1 with hpm hst
    subst hst
    exact ⟨rfl, rfl⟩
  | cons entry rest ih =>
    intro st pm' st' h
    obtain ⟨name, v⟩ := entry
    rw [saveRoster] at h
    cases hip : insertParticipant o st cid name true with
    | error e =>
      rw [hip] at h
      exact Except.noConfusion (show (Except.error e : Except String (PMap × DBState)) =
        Except.ok (pm', st') from h)
    | ok pr =>
      obtain ⟨pid, st₁⟩ := pr
      rw [hip] at h
      replace h : (do
          let (rest₁, st₂) ← saveRoster o cid rest st₁
          pure (((name, some pid) : String × Option Nat) :: rest₁, st₂)) =
        Except.ok (pm', st') := h
      cases hrr : saveRoster o cid rest st₁ with
      | error e =>
        rw [hrr] at h
        exact Except.noConfusion (show (Except.error e : Except String (PMap × DBState)) =
          Except.ok (pm', st') from h)
      | ok pr2 =>
        obtain ⟨rest₁, st₂⟩ := pr2
        rw [hrr] at h
        replace h : (Except.ok ((name, some pid) :: rest₁, st₂) :
          Except String (PMap × DBState)) = Except.ok (pm', st') := h
        injection h with h1
        injection h1 with hpm hst
        subst hst
        obtain ⟨hc, hm⟩ := ih st₁ rest₁ st₂ hrr
        obtain ⟨_, hst1⟩ := insertParticipant_ok o st cid name true pid st₁ hip
        have hc1 : st₁.conversations = st.conversations := by rw [hst1]
        have hm1 : st₁.messages = st.messages := by rw [hst1]
        exact ⟨by rw [hc, hc1], by rw [hm, hm1]⟩

theorem saveMessages_msgs (o : Oracle) (cid : Nat) (ms : List MessageRec) :
    ∀ (pm : PMap) (st : DBState) (pm' : PMap) (st' : DBState),
      saveMessages o cid ms pm st = Except.ok (pm', st') →
      st'.conversations = st.conversations ∧
      (∀ r ∈ st'.messages, r ∈ st.messages ∨ r.conversation_id = cid) := by
  induction ms with
  | nil =>
    intro pm st pm' st' h
    replace h : (Except.ok (pm, st) : Except String (PMap × DBState)) =
      Except.ok (pm', st') := h
    injection h with h1
    injection h1 with hpm hst
    subst hst
    exact ⟨rfl, fun r hr => Or.inl hr⟩
  | cons m rest ih =>
    intro pm st pm' st' h
    rw [saveMessages] at h
    cases hm : saveMessage o cid m pm st with
    | error e =>
      rw [hm] at h
      exact Except.noConfusion (show (Except.error e : Except String (PMap × DBState)) =
        Except.ok (pm', st') from h)
    | ok pr =>
      obtain ⟨pm₁, st₁⟩ := pr
      rw [hm] at h
      replace h : saveMessages o cid rest pm₁ st₁ = Except.ok (pm', st') := h
      obtain ⟨hc, hmm⟩ := ih pm₁ st₁ pm' st' h
      obtain ⟨hc1, sid, hm1⟩ := saveMessage_ok o cid m pm st pm₁ st₁ hm
      constructor
      · rw [hc, hc1]
      · intro r hr
        rcases hmm r hr with hmem | hid
        · rw [hm1] at hmem
          rcases List.mem_append.mp hmem with hmem2 | hmem2
          · exact Or.inl hmem2
          · right
            rw [List.mem_singleton] at hmem2
            rw [hmem2]
        · exact Or.inr hid

theorem saveConversation_ok (o : Oracle) (item : Conversation) (st : DBState)
    (out : Conversation × DBState) (h : saveConversation o item st = Except.ok out) :
    out.2.conversations.length = st.conversations.length + 1 ∧
    (∀ r ∈ out.2.messages, r ∈ st.messages ∨ r.conversation_id = item.id) := by
  obtain ⟨dirI, metaI, pmI, chI, msI, idI⟩ := item
  unfold saveConversation at h
  cases metaI with
  | none =>
    exact Except.noConfusion
      (show (Except.error "KeyError" : Except String (Conversation × DBState)) =
        Except.ok out from h)
  | some m =>
    replace h : (do
        let st₁ ← insertConversation o st idI m.1 m.2.1 m.2.2
        let (pm₁, st₂) ← saveRoster o idI pmI st₁
        let (pm₂, st₃) ← saveMessages o idI msI pm₁ st₂
        pure ((⟨dirI, some m, pm₂, chI, msI, idI⟩ : Conversation), st₃)) = Except.ok out := h
    cases hic : insertConversation o st idI m.1 m.2.1 m.2.2 with
    | error e =>
      rw [hic] at h
      exact Except.noConfusion (show (Except.error e : Except String (Conversation × DBState)) =
        Except.ok out from h)
    | ok st₁ =>
      rw [hic] at h
      replace h : (do
          let (pm₁, st₂) ← saveRoster o idI pmI st₁
          let (pm₂, st₃) ← saveMessages o idI msI pm₁ st₂
          pure ((⟨dirI, some m, pm₂, chI, msI, idI⟩ : Conversation), st₃)) = Except.ok out := h
      cases hr : saveRoster o idI pmI st₁ with
      | error e =>
        rw [hr] at h
        exact Except.noConfusion (show (Except.error e : Except String (Conversation × DBState)) =
          Except.ok out from h)
      | ok pr1 =>
        obtain ⟨pm₁, st₂⟩ := pr1
        rw [hr] at h
        replace h : (do
            let (pm₂, st₃) ← saveMessages o idI msI pm₁ st₂
            pure ((⟨dirI, some m, pm₂, chI, msI, idI⟩ : Conversation), st₃)) = Except.ok out := h
        cases hms : saveMessages o idI msI pm₁ st₂ with
        | error e =>
          rw [hms] at h
          exact Except.noConfusion
            (show (Except.error e : Except String (Conversation × DBState)) =
              Except.ok out from h)
        | ok pr2 =>
          obtain ⟨pm₂, st₃⟩ := pr2
          rw [hms] at h
          replace h : (Except.ok ((⟨dirI, some m, pm₂, chI, msI, idI⟩ : Conversation), st₃) :
            Except String (Conversation × DBState)) = Except.ok out := h
          injection h with h1
          subst h1
          have hi := insertConversation_ok o st idI m.1 m.2.1 m.2.2 st₁ hic
          have hic1 : st₁.conversations = st.conversations ++ [⟨idI, m.1, m.2.1, m.2.2⟩] := by
            rw [hi]
          have him1 : st₁.messages = st.messages := by rw [hi]
          obtain ⟨hrc, hrm⟩ := saveRoster_frame o idI pmI st₁ pm₁ st₂ hr
          obtain ⟨hmc, hmm⟩ := saveMessages_msgs o idI msI pm₁ st₂ pm₂ st₃ hms
          constructor
          · show st₃.conversations.length = st.conversations.length + 1
            rw [hmc, hrc, hic1]
            simp
          · intro r hr2
            rcases hmm r hr2 with hmem | hid
            · rw [hrm, him1] at hmem
              exact Or.inl hmem
            · exact Or.inr hid

theorem save_ok (o : Oracle) (conn : Connection) (item : Conversation)
    (out : Conversation × Connection) (h : save o conn item = Except.ok out) :
    out.2.committed.conversations.length = conn.committed.conversations.length + 1 ∧
    (∀ r ∈ out.2.committed.messages,
      r ∈ conn.committed.messages ∨ r.conversation_id = item.id) := by
  unfold save at h
  cases hc : saveConversation o item conn.committed with
  | error e =>
    rw [hc] at h
    exact Except.noConfusion (show (Except.error e : Except String (Conversation × Connection)) =
      Except.ok out from h)
  | ok pr =>
    obtain ⟨item₁, st₁⟩ := pr
    rw [hc] at h
    replace h : (Except.ok (item₁, (⟨st₁⟩ : Connection)) :
      Except String (Conversation × Connection)) = Except.ok out := h
    injection h with h1
    subst h1
    exact saveConversation_ok o item conn.committed (item₁, st₁) hc

theorem persistList_ok (o : Oracle) (convs : List Conversation) :
    ∀ (conn conn' : Connection), persistList o conn convs = Except.ok conn' →
      conn'.committed.conversations.length =
        conn.committed.conversations.length + convs.length ∧
      (∀ r ∈ conn'.committed.messages,
        r ∈ conn.committed.messages ∨ r.conversation_id ∈ convs.map Conversation.id) := by
  induction convs with
  | nil =>
    intro conn conn' h
    replace h : (Except.ok conn : Except String Connection) = Except.ok conn' := h
    injection h with h1
    subst h1
    exact ⟨by simp, fun r hr => Or.inl hr⟩
  | cons c cs ih =>
    intro conn conn' h
    rw [persistList] at h
    cases hs : save o conn c with
    | error e =>
      rw [hs] at h
      exact Except.noConfusion (show (Except.error e : Except String Connection) =
        Except.ok conn' from h)
    | ok pr =>
      obtain ⟨c₁, conn₁⟩ := pr
      rw [hs] at h
      replace h : persistList o conn₁ cs = Except.ok conn' := h
      obtain ⟨hlen, hmsg⟩ := ih conn₁ conn' h
      obtain ⟨hlen1, hmsg1⟩ := save_ok o conn c (c₁, conn₁) hs
      constructor
      · rw [hlen, hlen1, List.length_cons]
        omega
      · intro r hr
        rcases hmsg r hr with hmem | hid
        · rcases hmsg1 r hmem with hmem2 | hid2
          · exact Or.inl hmem2
          · right
            rw [List.map_cons, hid2]
            exact List.mem_cons_self _ _
        · right
          rw [List.map_cons]
          exact List.mem_cons_of_mem _ hid

/-- C8: `removeAll` deletes every row of every owned table —
conversations, participants, messages, the five attachment tables,
reactions, shares, stickers — and after a clear, persisting N
conversations leaves exactly N rows in `conversations`, with every
message row referencing one of the just-persisted conversations and
nothing from before the clear. -/
theorem removeAll_clean_slate :
    (∀ conn : Connection,
      (removeAll conn).committed.conversations = [] ∧
      (removeAll conn).committed.participants = [] ∧
      (removeAll conn).committed.messages = [] ∧
      (removeAll conn).committed.photos = [] ∧
      (removeAll conn).committed.videos = [] ∧
      (removeAll conn).committed.files = [] ∧
      (removeAll conn).committed.audio_files = [] ∧
      (removeAll conn).committed.gifs = [] ∧
      (removeAll conn).committed.reactions = [] ∧
      (removeAll conn).committed.shares = [] ∧
      (removeAll conn).committed.stickers = []) ∧
    (∀ (o : Oracle) (conn : Connection) (convs : List Conversation) (conn' : Connection),
      persistList o (removeAll conn) convs = Except.ok conn' →
      conn'.committed.conversations.length = convs.length ∧
      ∀ r ∈ conn'.committed.messages, r.conversation_id ∈ convs.map Conversation.id) := by
  constructor
  · intro conn
    exact ⟨rfl, rfl, rfl, rfl, rfl, rfl, rfl, rfl, rfl, rfl, rfl⟩
  · intro o conn convs conn' h
    obtain ⟨hlen, hmsg⟩ := persistList_ok o convs (removeAll conn) conn' h
    constructor
    · rw [hlen, show (removeAll conn).committed.conversations = ([] : List ConversationRow)
        from rfl]
      simp
    · intro r hr
      rcases hmsg r hr with hmem | hid
      · rw [show (removeAll conn).committed.messages = ([] : List MessageRow) from rfl] at hmem
        simp at hmem
      · exact hid

/-- A second conversation for the re-import example. -/
def convW2 : Conversation := { convEx12 with id := 1 }

/-- A connection still holding rows from a previous run. -/
def connJunk : Connection :=
  ⟨⟨[⟨9, "x", "y", "z"⟩], [⟨5, 3, "old", 1⟩], [⟨4, 0, "t", none, 9, none⟩],
    [], [], [], [], [], [], [], [], 7⟩⟩

/-- The connection after a clear followed by persisting two
conversations. -/
def c8run : Connection :=
  (persistList neverFail (removeAll connJunk) [convEx12, convW2]).toOption.getD
    (removeAll connJunk)

/-- Witness for C8: the clear empties `conversations`, and persisting
two conversations afterwards leaves exactly two rows there. -/
theorem removeAll_clean_slate_witness :
    (removeAll connJunk).committed.conversations = [] ∧
    c8run.committed.conversations.length = 2 :=
  ⟨(removeAll_clean_slate.1 connJunk).1,
    (removeAll_clean_slate.2 neverFail connJunk [convEx12, convW2] c8run rfl).1⟩

end FbParser
